import Mathlib

/-!
Verification development for the design-token transformation pipeline
(`sd.config.ts` mode resolution and `build-tailwind-tokens.ts` reshaping and
reference rewriting).  JavaScript values flowing through the pipeline are
JSON-shaped data (the token trees are parsed from JSON files), so they are
embedded as the inductive `JVal` below.  JavaScript objects are embedded as
association lists in insertion order (`Object.entries` enumerates string keys
in insertion order, and JSON-parsed objects have pairwise distinct keys).
JavaScript numbers are embedded as exact rationals (`JNum`); the token values
the pipeline divides and re-prints are short decimal literals, for which
binary floating point and exact rational arithmetic agree.
-/

/-- A JavaScript number, as an exact (not necessarily reduced) rational with a
positive denominator. -/
structure JNum where
  n : Int
  d : Nat
deriving Repr, DecidableEq

inductive JVal where
  | null : JVal
  | bool : Bool → JVal
  | num : JNum → JVal
  | str : String → JVal
  | arr : List JVal → JVal
  | obj : List (String × JVal) → JVal
deriving Repr

/-- Property lookup on an object's field list (first occurrence; JSON-parsed
objects have distinct keys). -/
def getField : List (String × JVal) → String → Option JVal
  | [], _ => none
  | (k, v) :: rest, key => if k = key then some v else getField rest key

/-- The JavaScript `in` operator on a plain object: key presence. -/
def hasField (fields : List (String × JVal)) (key : String) : Bool :=
  (getField fields key).isSome

/-- Field update as performed by an object spread with an override, e.g.
`\x7b...obj, $value\x7d`: an existing key keeps its position and receives the
new value; a missing key is appended at the end. -/
def setField : List (String × JVal) → String → JVal → List (String × JVal)
  | [], key, v => [(key, v)]
  | (k, w) :: rest, key, v =>
    if k = key then (k, v) :: rest else (k, w) :: setField rest key v

/-- The `in` operator on an arbitrary value.  In the source it is only reached
behind a `typeof === 'object'` guard; on an array a non-index key such as a
mode name is absent, so arrays answer `false` here. -/
def jHasKey : JVal → String → Bool
  | .obj fields, key => hasField fields key
  | _, _ => false

/-- Property read `v[key]` (guarded by `jHasKey` at every use site in the
source, so the default is never observable). -/
def jGetD : JVal → String → JVal
  | .obj fields, key => (getField fields key).getD JVal.null
  | _, _ => JVal.null

/-- Field lookup on a value known to be an object. -/
def getJField : JVal → String → Option JVal
  | .obj fields, key => getField fields key
  | _, _ => none

/-- The JavaScript test `typeof v === 'object' && v !== null`: plain objects
and arrays. -/
def isObjLike : JVal → Bool
  | .obj _ => true
  | .arr _ => true
  | _ => false

/-- Numeric equality of two `JNum`s (cross multiplication). -/
def numEq (a b : JNum) : Bool :=
  decide (a.n * (b.d : Int) = b.n * (a.d : Int))

/-- Strict equality `===` on the values that occur in parsed token data.
Primitives compare by value; two objects or arrays read from distinct places
of a JSON-parsed tree are distinct heap references, hence `===`-different. -/
def strictEq : JVal → JVal → Bool
  | .null, .null => true
  | .bool a, .bool b => decide (a = b)
  | .num a, .num b => numEq a b
  | .str a, .str b => decide (a = b)
  | _, _ => false

/-- Least exponent `k` with `den ∣ 10 ^ k`, when one exists (it does whenever
`den` factors over 2 and 5, which holds for every denominator produced by
parsing a decimal literal and dividing by 16). -/
def findPow (den : Nat) : Option Nat :=
  List.find? (fun k => Nat.pow 10 k % den == 0) (List.range (den + 1))

/-- Left-pad a digit string with zeros to the given length. -/
def padZeros (s : String) (len : Nat) : String :=
  String.mk (List.replicate (len - s.length) ('0')) ++ s

/-- Decimal rendering of the nonnegative reduced fraction `n / d` whose
denominator divides a power of ten, mirroring JavaScript number-to-string
output on such values: no decimal point for integers, otherwise the exact
fraction digits with no trailing zeros (minimality of `findPow` makes the
last digit nonzero). -/
def jsNumStrNN (n d : Nat) : String :=
  match findPow d with
  | none => toString n ++ ("/") ++ toString d
  | some k =>
    let scaled : Nat := n * Nat.pow 10 k / d
    let ip : Nat := scaled / Nat.pow 10 k
    let fp : Nat := scaled % Nat.pow 10 k
    if k == 0 then toString ip
    else toString ip ++ (".") ++ padZeros (toString fp) k

/-- JavaScript number-to-string on an exact rational: reduce the fraction,
then render its decimal expansion (negative zero prints as `0` in JavaScript,
matching `-0 = 0` on exact rationals). -/
def jsNumStr (q : JNum) : String :=
  let g := Nat.gcd q.n.natAbs q.d
  let n := q.n.natAbs / g
  let d := q.d / g
  if q.n < 0 && n != 0 then ("-") ++ jsNumStrNN n d else jsNumStrNN n d

mutual

/-- JavaScript string interpolation of a value, as in a template literal. -/
def jstr : JVal → String
  | .null => ("null")
  | .bool b => if b then ("true") else ("false")
  | .num q => jsNumStr q
  | .str s => s
  | .arr xs => String.intercalate (",") (jstrElems xs)
  | .obj _ => ("[object Object]")

/-- Array elements under `Array.prototype.toString`: `null` renders empty, any
other element renders as its interpolation. -/
def jstrElems : List JVal → List String
  | [] => []
  | JVal.null :: rest => ("") :: jstrElems rest
  | e :: rest => jstr e :: jstrElems rest

end

/-! ## Mode resolution (`resolveModes`, sd.config.ts lines 14-66)

`resolveModes(tokens, [lightModeKey, darkModeKey])` walks a record.  A value
that is `null`, not an object, or an array is copied through.  An object that
carries `$value` and an object-typed `$extensions` with a `mode` key is a
candidate token: if both selected mode keys are present it is collapsed for
the light/dark dimension, else if `Base`, `Compact` and `Comfortable` are all
present it is collapsed for the size dimension; any other object (including a
candidate token matching neither dimension) is resolved recursively. -/

/-- The token guard of `resolveModes`: `'$value' in obj && '$extensions' in
obj && typeof obj.$extensions === 'object' && obj.$extensions !== null &&
'mode' in obj.$extensions`, returning the `mode` value when it holds. -/
def extModeOf (fields : List (String × JVal)) : Option JVal :=
  if hasField fields ("$value") then
    match getField fields ("$extensions") with
    | some ext =>
      if isObjLike ext && jHasKey ext ("mode") then some (jGetD ext ("mode"))
      else none
    | none => none
  else none

/-- The test `obj.$type === 'color'` (an absent `$type` is `undefined`, which
is not strictly equal to any string). -/
def typeIsColor (fields : List (String × JVal)) : Bool :=
  match getField fields ("$type") with
  | some v => strictEq v (JVal.str ("color"))
  | none => false

/-- The collapsed color value `light-dark(<light>, <dark>)`. -/
def lightDarkStr (vl vd : JVal) : String :=
  ("light-dark(") ++ jstr vl ++ (", ") ++ jstr vd ++ (")")

/-- The collapsed non-color value
`var(--is-light, <light>) var(--is-dark, <dark>)`. -/
def varLightDarkStr (vl vd : JVal) : String :=
  ("var(--is-light, ") ++ jstr vl ++ (") var(--is-dark, ") ++ jstr vd ++ (")")

/-- The collapsed size value `var(--is-size-base, <base>)
var(--is-size-compact, <compact>) var(--is-size-comfortable, <comfortable>)`. -/
def sizeToggleStr (vb vc vf : JVal) : String :=
  ("var(--is-size-base, ") ++ jstr vb ++ (") var(--is-size-compact, ") ++
    jstr vc ++ (") var(--is-size-comfortable, ") ++ jstr vf ++ (")")

mutual

/-- Resolution of one record entry's value, covering the body of the
`for`-loop of `resolveModes`. -/
def resolveValue (l d : String) : JVal → JVal
  | .obj fields =>
    match extModeOf fields with
    | some mode =>
      if jHasKey mode l && jHasKey mode d then
        if strictEq (jGetD mode l) (jGetD mode d) then JVal.obj fields
        else
          JVal.obj (setField fields ("$value") (JVal.str
            (if typeIsColor fields then lightDarkStr (jGetD mode l) (jGetD mode d)
             else varLightDarkStr (jGetD mode l) (jGetD mode d))))
      else if jHasKey mode ("Base") && jHasKey mode ("Compact") &&
          jHasKey mode ("Comfortable") then
        if strictEq (jGetD mode ("Base")) (jGetD mode ("Compact")) &&
            strictEq (jGetD mode ("Compact")) (jGetD mode ("Comfortable")) then
          JVal.obj fields
        else
          JVal.obj (setField fields ("$value") (JVal.str
            (sizeToggleStr (jGetD mode ("Base")) (jGetD mode ("Compact"))
              (jGetD mode ("Comfortable")))))
      else JVal.obj (resolveFields l d fields)
    | none => JVal.obj (resolveFields l d fields)
  | v => v

/-- The entry loop of `resolveModes`, building the result record. -/
def resolveFields (l d : String) : List (String × JVal) → List (String × JVal)
  | [] => []
  | (k, v) :: rest => (k, resolveValue l d v) :: resolveFields l d rest

end

/-- `resolveModes(tokens, [l, d])`. -/
def resolveModes (tokens : List (String × JVal)) (l d : String) :
    List (String × JVal) :=
  resolveFields l d tokens

/-! ## Projections and concrete tokens used by witnesses and counterexamples -/

/-- Projection of an optional value to its string payload. -/
def projStr : Option JVal → Option String
  | some (JVal.str s) => some s
  | _ => none

/-- The `$value` string of the token stored under `key` in a record. -/
def entryValueStr (tokens : List (String × JVal)) (key : String) : Option String :=
  match getField tokens key with
  | some (JVal.obj fs) => projStr (getField fs ("$value"))
  | _ => none

/-- The string stored under mode name `mname` inside the `$extensions.mode`
map of the token stored under `key`. -/
def modeEntryStr (tokens : List (String × JVal)) (key mname : String) :
    Option String :=
  match getField tokens key with
  | some (JVal.obj fs) =>
    match extModeOf fs with
    | some (JVal.obj m) => projStr (getField m mname)
    | _ => none
  | _ => none

/-- The `$value` string of the object stored in the `$value` field of the
token stored under `key` (used to observe a nested value object). -/
def innerValueStr (tokens : List (String × JVal)) (key : String) :
    Option String :=
  match getField tokens key with
  | some (JVal.obj fs) =>
    match getField fs ("$value") with
    | some (JVal.obj g) => projStr (getField g ("$value"))
    | _ => none
  | _ => none

/-- Plain-object test (arrays excluded). -/
def isPlainObj : JVal → Bool
  | .obj _ => true
  | _ => false

/-- A color token with differing Light/Dark mode values. -/
def w1mode : JVal :=
  JVal.obj ([(("Light"), JVal.str ("#fff")), (("Dark"), JVal.str ("#000"))])

def w1fields : List (String × JVal) :=
  [(("$type"), JVal.str ("color")), (("$value"), JVal.str ("#fff")),
   (("$extensions"), JVal.obj ([(("mode"), w1mode)]))]

/-- A color token whose Light and Dark mode values are both `#eee` while its
top-level `$value` is `#fff`. -/
def c2mode : JVal :=
  JVal.obj ([(("Light"), JVal.str ("#eee")), (("Dark"), JVal.str ("#eee"))])

def c2fields : List (String × JVal) :=
  [(("$type"), JVal.str ("color")), (("$value"), JVal.str ("#fff")),
   (("$extensions"), JVal.obj ([(("mode"), c2mode)]))]

/-- A token whose `modes` map carries a full size triple with three distinct
values and also both selected light/dark keys with equal values. -/
def c3mode : JVal :=
  JVal.obj ([(("Light"), JVal.str ("a")), (("Dark"), JVal.str ("a")),
    (("Base"), JVal.str ("1")), (("Compact"), JVal.str ("2")),
    (("Comfortable"), JVal.str ("3"))])

def c3fields : List (String × JVal) :=
  [(("$value"), JVal.str ("v0")),
   (("$extensions"), JVal.obj ([(("mode"), c3mode)]))]

/-- A dimension token with a full size triple and no light/dark keys (the
spec's concrete size scenario). -/
def w3mode : JVal :=
  JVal.obj ([(("Base"), JVal.str ("16px")), (("Compact"), JVal.str ("12px")),
    (("Comfortable"), JVal.str ("20px"))])

def w3fields : List (String × JVal) :=
  [(("$type"), JVal.str ("dimension")), (("$value"), JVal.str ("16px")),
   (("$extensions"), JVal.obj ([(("mode"), w3mode)]))]

/-- A color token carrying, besides the selected Light/Dark pair, a mode value
of another brand; `b3` is that other brand's value. -/
def c4mode (b3 : String) : JVal :=
  JVal.obj ([(("Light"), JVal.str ("#fff")), (("Dark"), JVal.str ("#000")),
    (("Brand #3 - Light"), JVal.str (b3))])

def c4fields (b3 : String) : List (String × JVal) :=
  [(("$type"), JVal.str ("color")), (("$value"), JVal.str ("#fff")),
   (("$extensions"), JVal.obj ([(("mode"), c4mode (b3))]))]

/-- A token with a partial light/dark match (only the light key) whose
`$value` is itself an object of full token shape with a complete light/dark
pair. -/
def c5inner : JVal :=
  JVal.obj ([(("$value"), JVal.str ("a")),
    (("$extensions"), JVal.obj ([(("mode"),
      JVal.obj ([(("Light"), JVal.str ("1")), (("Dark"), JVal.str ("2"))]))]))])

def c5mode : JVal := JVal.obj ([(("Light"), JVal.str ("x"))])

def c5fields : List (String × JVal) :=
  [(("$value"), c5inner),
   (("$extensions"), JVal.obj ([(("mode"), c5mode)]))]

/-- A partial-match token with a plain string value. -/
def w5mode : JVal := JVal.obj ([(("Light"), JVal.str ("#abc"))])

def w5fields : List (String × JVal) :=
  [(("$type"), JVal.str ("color")), (("$value"), JVal.str ("#abc")),
   (("$extensions"), JVal.obj ([(("mode"), w5mode)]))]

/-! ## Reference rewriting (`rewriteReferences`, build-tailwind-tokens.ts lines 217-230)

`rewriteReferences` chains nine `replaceAll` calls over the whole string.
Rules 1-4 use the patterns `\x7bTheme\.(.+)\.LIT( .+)?\x7d` for `LIT` among
`Font Family`, `Font Size`, `Letter Spacing`, `Line Height`, replaced by
`\x7bTARGET$1$2\x7d`; rules 5-8 replace fixed substrings; rule 9 matches
`\x7bTypography Primitives\.(.+)\.Family ` and replaces it by
`\x7bfont.$1.`.  The embedding works on character lists and mirrors the
JavaScript regular-expression semantics of these concrete patterns: a global
pass finds matches left to right and non-overlapping, at each position the
greedy `(.+)` backtracks from the longest candidate, the optional group is
tried before being skipped, and `.` matches every character except the four
line terminators. -/

def obr : Char := '\x7b'

def cbr : Char := '\x7d'

/-- Characters matched by `.` in a JavaScript regular expression (any
character that is not a line terminator). -/
def dotChar (c : Char) : Bool :=
  c != '\n' && c != '\r' && c != ' ' && c != ' '

/-- Greedy match of `.+\x7d` inside the optional trailing group: the longest
all-dot prefix of `u` (of length at most `j`, scanned downward) followed
immediately by a closing brace; returns the body and the remainder after the
brace. -/
def tailBody (u : List Char) : Nat → Option (List Char × List Char)
  | 0 => none
  | j + 1 =>
    let body := u.take (j + 1)
    let r := u.drop (j + 1)
    if body.all dotChar then
      match r with
      | c :: r2 => if c = cbr then some (body, r2) else tailBody u j
      | [] => tailBody u j
    else tailBody u j

/-- Match of `( .+)?\x7d` against `t`: the group (a space followed by the
longest dot-run ending right before a closing brace) is tried first, the
empty group (an immediate closing brace) second.  Returns the captured group
text and the remainder after the closing brace. -/
def tailGroupA (t : List Char) : Option (List Char × List Char) :=
  match t with
  | [] => none
  | c :: u =>
    if c = ' ' then
      match tailBody u u.length with
      | some (body, r) => some (' ' :: body, r)
      | none => none
    else if c = cbr then some ([], u) else none

/-- Greedy match of `(.+)\.LIT( .+)?\x7d` against `rest0`, backtracking the
leading capture from length `i` downward. -/
def matchTailA (lit : List Char) (rest0 : List Char) :
    Nat → Option (List Char × List Char × List Char)
  | 0 => none
  | i + 1 =>
    let g1 := rest0.take (i + 1)
    let t := rest0.drop (i + 1)
    if g1.all dotChar && List.isPrefixOf ('.' :: lit) t then
      match tailGroupA (t.drop (lit.length + 1)) with
      | some (g2, r) => some (g1, g2, r)
      | none => matchTailA lit rest0 i
    else matchTailA lit rest0 i

/-- Match of a rules-1-to-4 pattern `PRE(.+)\.LIT( .+)?\x7d` at the head of
`s`, returning both captures and the remainder after the match. -/
def matchA (pre lit : List Char) (s : List Char) :
    Option (List Char × List Char × List Char) :=
  if List.isPrefixOf pre s then
    matchTailA lit (s.drop pre.length) (s.drop pre.length).length
  else none

/-- One rules-1-to-4 `replaceAll` pass: scan left to right, at each position
emit the replacement `\x7bTARGET$1$2\x7d` for a match (continuing after the
matched text, as the JavaScript global scan does) or copy one character.  The
fuel bounds the number of scan steps; every step consumes at least one input
character, so `l.length` fuel (as supplied by `runA`) always suffices and the
fuel-exhausted branch is unreachable from the wrapper. -/
def scanAF (pre lit target : List Char) : Nat → List Char → List Char
  | 0, l => l
  | _ + 1, [] => []
  | fuel + 1, c :: cs =>
    match matchA pre lit (c :: cs) with
    | some (g1, g2, r) =>
      obr :: (target ++ g1 ++ g2 ++ cbr :: scanAF pre lit target fuel r)
    | none => c :: scanAF pre lit target fuel cs

def runA (pre lit target : List Char) (l : List Char) : List Char :=
  scanAF pre lit target l.length l

/-- The pattern prefix of rules 1-4, `\x7bTheme\.`. -/
def preTheme : List Char := ("\x7bTheme.").data

/-- The pattern prefix of rule 9 and of the `isPrefixOf` checks of rules 7-8,
`\x7bTypography Primitives\.`. -/
def preTypo : List Char := ("\x7bTypography Primitives.").data

/-- The literal separator `\.Family ` of rule 9. -/
def famSep : List Char := (".Family ").data

/-- Greedy match of `(.+)\.Family ` against `rest0` for rule 9. -/
def matchTailB (rest0 : List Char) : Nat → Option (List Char × List Char)
  | 0 => none
  | i + 1 =>
    let g1 := rest0.take (i + 1)
    let t := rest0.drop (i + 1)
    if g1.all dotChar && List.isPrefixOf famSep t then
      some (g1, t.drop famSep.length)
    else matchTailB rest0 i

/-- Match of the rule-9 pattern `\x7bTypography Primitives\.(.+)\.Family ` at
the head of `s`. -/
def matchB (s : List Char) : Option (List Char × List Char) :=
  if List.isPrefixOf preTypo s then
    matchTailB (s.drop preTypo.length) (s.drop preTypo.length).length
  else none

/-- The rule-9 `replaceAll` pass, with replacement `\x7bfont.$1.`; fueled
like `scanAF`. -/
def scanBF : Nat → List Char → List Char
  | 0, l => l
  | _ + 1, [] => []
  | fuel + 1, c :: cs =>
    match matchB (c :: cs) with
    | some (g1, r) => obr :: (("font.").data ++ g1 ++ '.' :: scanBF fuel r)
    | none => c :: scanBF fuel cs

def runB (l : List Char) : List Char := scanBF l.length l

/-- A literal-substring `replaceAll` pass (rules 5-8); fueled like
`scanAF`. -/
def repLitF (pat repl : List Char) : Nat → List Char → List Char
  | 0, l => l
  | _ + 1, [] => []
  | fuel + 1, c :: cs =>
    if List.isPrefixOf pat (c :: cs) then
      repl ++ repLitF pat repl fuel ((c :: cs).drop pat.length)
    else c :: repLitF pat repl fuel cs

def runLit (pat repl : List Char) (l : List Char) : List Char :=
  repLitF pat repl l.length l

def litFontFamily : List Char := ("Font Family").data

def litFontSize : List Char := ("Font Size").data

def litLetterSpacing : List Char := ("Letter Spacing").data

def litLineHeight : List Char := ("Line Height").data

def tgtFont : List Char := ("font.").data

def tgtText : List Char := ("text.").data

def tgtTracking : List Char := ("tracking.").data

def tgtLeading : List Char := ("leading.").data

def patSizeDepth : List Char := ("\x7bSize.Depth.").data

def repDepth : List Char := ("\x7bdepth.").data

def patColorPrim : List Char := ("\x7bColor Primitives.").data

def repColor : List Char := ("\x7bcolor.").data

def patScale : List Char := ("\x7bTypography Primitives.Scale.Scale ").data

def repText : List Char := ("\x7btext.").data

def patWeight : List Char := ("\x7bTypography Primitives.Weight.Weight ").data

def repWeight : List Char := ("\x7bfont-weight.").data

/-- Rule 1: `\x7bTheme\.(.+)\.Font Family( .+)?\x7d` to `\x7bfont.$1$2\x7d`. -/
def rule1 (l : List Char) : List Char := runA preTheme litFontFamily tgtFont l

/-- Rule 2: `\x7bTheme\.(.+)\.Font Size( .+)?\x7d` to `\x7btext.$1$2\x7d`. -/
def rule2 (l : List Char) : List Char := runA preTheme litFontSize tgtText l

/-- Rule 3: `\x7bTheme\.(.+)\.Letter Spacing( .+)?\x7d` to
`\x7btracking.$1$2\x7d`. -/
def rule3 (l : List Char) : List Char :=
  runA preTheme litLetterSpacing tgtTracking l

/-- Rule 4: `\x7bTheme\.(.+)\.Line Height( .+)?\x7d` to
`\x7bleading.$1$2\x7d`. -/
def rule4 (l : List Char) : List Char := runA preTheme litLineHeight tgtLeading l

/-- Rule 5: `\x7bSize\.Depth\.` to `\x7bdepth.`. -/
def rule5 (l : List Char) : List Char := runLit patSizeDepth repDepth l

/-- Rule 6: `\x7bColor Primitives\.` to `\x7bcolor.`. -/
def rule6 (l : List Char) : List Char := runLit patColorPrim repColor l

/-- Rule 7: `\x7bTypography Primitives\.Scale\.Scale ` to `\x7btext.`. -/
def rule7 (l : List Char) : List Char := runLit patScale repText l

/-- Rule 8: `\x7bTypography Primitives\.Weight\.Weight ` to
`\x7bfont-weight.`. -/
def rule8 (l : List Char) : List Char := runLit patWeight repWeight l

/-- Rule 9: `\x7bTypography Primitives\.(.+)\.Family ` to `\x7bfont.$1.`. -/
def rule9 (l : List Char) : List Char := runB l

/-- The nine rules of `rewriteReferences`, applied in source order. -/
def rewriteCore (l : List Char) : List Char :=
  rule9 (rule8 (rule7 (rule6 (rule5 (rule4 (rule3 (rule2 (rule1 l))))))))

/-- `rewriteReferences(value)`. -/
def rewriteReferences (value : String) : String :=
  String.mk (rewriteCore value.data)

/-- The guard `value.includes('\x7b')`. -/
def hasBraceL (l : List Char) : Bool := l.any (fun c => c == obr)

def hasBrace (s : String) : Bool := hasBraceL s.data

/-- Number of opening braces in a character list. -/
def braceCount (l : List Char) : Nat := l.countP (fun c => c == obr)

/-- Absence of opening braces: no rule pattern can match anywhere. -/
def Bfree (l : List Char) : Prop := obr ∉ l

/-- The first characters of the nine replacement texts after their opening
brace: every rule rewrites the matched reference to a target vocabulary name
starting with one of these lowercase letters. -/
def lowHeads : List Char := [('f'), ('t'), ('l'), ('d'), ('c')]

instance (l : List Char) : Decidable (Bfree l) :=
  inferInstanceAs (Decidable (obr ∉ l))

/-- A character list holding exactly one opening brace, which is followed by
one of the lowercase target heads: no rule pattern (each of which expects an
uppercase collection name after its opening brace) can match such a list. -/
def Locked (l : List Char) : Prop :=
  ∃ p h α, l = p ++ obr :: h :: α ∧ Bfree p ∧ Bfree (h :: α) ∧ h ∈ lowHeads

/-! ## Tree-wide reference rewriting
(`rewriteReferencesInObject` / `rewriteReferencesInToken`,
build-tailwind-tokens.ts lines 232-260)

`rewriteReferencesInObject` is `mapObject(object, mapper, \x7bdeep: true\x7d)`
with a mapper that rewrites string values containing an opening brace.
`map-obj` with `deep` recurses into plain objects and into objects and arrays
stored in arrays; strings that are direct array elements are not fields and
are not passed to the mapper. -/

mutual

/-- `mapObject` on an object or array (`_mapObject` / `mapArray` of map-obj),
with the reference-rewriting mapper. -/
def rriVal : JVal → JVal
  | .obj fs => .obj (rriFields fs)
  | .arr xs => .arr (rriArr xs)
  | v => v

/-- The field loop of `mapObject`. -/
def rriFields : List (String × JVal) → List (String × JVal)
  | [] => []
  | (k, v) :: rest => (k, rriField v) :: rriFields rest

/-- The mapper applied to one field value, followed by the deep recursion:
a string containing an opening brace is rewritten, an object or array is
recursed into, anything else is kept. -/
def rriField : JVal → JVal
  | .str s => if hasBrace s then .str (rewriteReferences s) else .str s
  | .obj fs => .obj (rriFields fs)
  | .arr xs => .arr (rriArr xs)
  | v => v

/-- `mapArray`: object and array elements are recursed into, all other
elements are kept unchanged. -/
def rriArr : List JVal → List JVal
  | [] => []
  | e :: rest => (if isObjLike e then rriVal e else e) :: rriArr rest

end

/-- The `$value` half of `rewriteReferencesInToken`: an object value goes
through `rewriteReferencesInObject`, an array value has its object elements
rewritten, a string value containing a brace is rewritten.  (A `null` value
would make `map-obj` throw in the source; token data always carries a
non-null value, and the model keeps it unchanged.) -/
def rriValueStep (fields : List (String × JVal)) : List (String × JVal) :=
  match getField fields ("$value") with
  | some (JVal.obj o) => setField fields ("$value") (rriVal (JVal.obj o))
  | some (JVal.arr xs) =>
    setField fields ("$value")
      (JVal.arr (xs.map (fun e => if isObjLike e then rriVal e else e)))
  | some (JVal.str s) =>
    if hasBrace s then setField fields ("$value") (JVal.str (rewriteReferences s))
    else fields
  | _ => fields

/-- The `$extensions.mode` half of `rewriteReferencesInToken`: when the token
carries an object `$extensions` with a `mode` map, the map is rewritten with
`rewriteReferencesInObject`. -/
def rriModeStep (fields : List (String × JVal)) : List (String × JVal) :=
  match getField fields ("$extensions") with
  | some (JVal.obj ext) =>
    match getField ext ("mode") with
    | some m =>
      setField fields ("$extensions") (JVal.obj (setField ext ("mode") (rriVal m)))
    | none => fields
  | _ => fields

/-- `rewriteReferencesInToken(token)` (the source mutates the token in place;
the model returns the updated field list). -/
def rriToken (fields : List (String × JVal)) : List (String × JVal) :=
  rriModeStep (rriValueStep fields)

/-- Lookup along a path of object keys. -/
def getPath : JVal → List String → Option JVal
  | v, [] => some v
  | JVal.obj fs, k :: ks =>
    match getField fs k with
    | some v => getPath v ks
    | none => none
  | _, _ :: _ => none

/-! ## Unit conversion (`pxToRem`, build-tailwind-tokens.ts lines 50-68)

`pxToRem` rewrites a token's bare (reference-free) string value to
`parseFloat(value) / basePxFontSize` with a `rem` suffix, and converts every
reference-free mode entry the same way.  JavaScript numbers are binary
floats; the model computes with exact rationals, which agree with the float
computation on the short decimal magnitudes that token exports carry
(`x / 16` is exact float scaling).  `parseFloat`'s `Infinity` literal and
float overflow are outside the model. -/

def basePxFontSize : Nat := 16

/-- Division of an exact rational by a positive natural. -/
def jnDivNat (q : JNum) (b : Nat) : JNum := ⟨q.n, q.d * b⟩

/-- Leading decimal digits: accumulated value, digit count and remainder. -/
def takeDigits : List Char → Nat → Nat → Nat × Nat × List Char
  | [], acc, cnt => (acc, cnt, [])
  | c :: cs, acc, cnt =>
    if c.isDigit then takeDigits cs (acc * 10 + (c.toNat - ('0').toNat)) (cnt + 1)
    else (acc, cnt, c :: cs)

def dropWs : List Char → List Char
  | [] => []
  | c :: cs => if c.isWhitespace then dropWs cs else c :: cs

/-- The optional exponent part of a decimal literal: `e`/`E`, an optional
sign and digits; without a digit the exponent is ignored, as in
`parseFloat`. -/
def applyExp (q : JNum) (cs : List Char) : JNum :=
  let (neg, cs1) : Bool × List Char :=
    match cs with
    | '-' :: t => (true, t)
    | '+' :: t => (false, t)
    | _ => (false, cs)
  let (ev, ne, _) := takeDigits cs1 0 0
  if ne = 0 then q
  else if neg then ⟨q.n, q.d * Nat.pow 10 ev⟩
  else ⟨q.n * (Nat.pow 10 ev : Int), q.d⟩

/-- JavaScript `parseFloat` on the decimal-literal grammar: leading
whitespace, an optional sign, digits with an optional fraction, an optional
exponent; `none` models `NaN` (no digit found). -/
def parseFloatQ (s : String) : Option JNum :=
  let l := dropWs s.data
  let (sgn, l1) : Int × List Char :=
    match l with
    | '-' :: cs => (-1, cs)
    | '+' :: cs => (1, cs)
    | _ => (1, l)
  let (ip, ni, r1) := takeDigits l1 0 0
  let (fp, nf, r2) :=
    match r1 with
    | '.' :: cs => takeDigits cs 0 0
    | _ => (0, 0, r1)
  if ni + nf = 0 then none
  else
    let mant : JNum := ⟨sgn * ((ip * Nat.pow 10 nf + fp : Nat) : Int), Nat.pow 10 nf⟩
    match r2 with
    | 'e' :: cs => some (applyExp mant cs)
    | 'E' :: cs => some (applyExp mant cs)
    | _ => some mant

/-- The converted value `${parseFloat(value) / basePxFontSize}rem` (a
`NaN` numerator interpolates as the string `NaN`). -/
def remString (s : String) : String :=
  (match parseFloatQ s with
   | some q => jsNumStr (jnDivNat q basePxFontSize)
   | none => ("NaN")) ++ ("rem")

/-- Conversion of one mode entry: reference values (containing a brace) are
left untouched, any other string is converted.  (The source types entries as
strings; a non-string entry would throw at `value.includes` and is kept
unchanged here.) -/
def pxToRemMode : JVal → JVal
  | .str s => if hasBrace s then .str s else .str (remString s)
  | v => v

/-- The `$value` half of `pxToRem`. -/
def pxToRemValueStep (fields : List (String × JVal)) : List (String × JVal) :=
  match getField fields ("$value") with
  | some (JVal.str s) =>
    if hasBrace s then fields
    else setField fields ("$value") (JVal.str (remString s))
  | _ => fields

/-- The `$extensions.mode` half of `pxToRem`: a flat `mapObject` over the
mode entries. -/
def pxToRemModeStep (fields : List (String × JVal)) : List (String × JVal) :=
  match getField fields ("$extensions") with
  | some (JVal.obj ext) =>
    match getField ext ("mode") with
    | some (JVal.obj m) =>
      setField fields ("$extensions") (JVal.obj (setField ext ("mode")
        (JVal.obj (m.map (fun kv => (kv.1, pxToRemMode kv.2))))))
    | _ => fields
  | _ => fields

/-- `pxToRem(token)`. -/
def pxToRem (fields : List (String × JVal)) : List (String × JVal) :=
  pxToRemModeStep (pxToRemValueStep fields)

/-! ## Token mapping (`mapTokens`, build-tailwind-tokens.ts lines 23-48)

`mapTokens` deep-clones its input with `structuredClone` and runs `mapObject`
with `deep: true`; the mapper is applied to token nodes (objects carrying
`$value`) without recursing into the result, other objects and arrays are
recursed into, and `mapObjectSkip` drops an entry.  On pure values the
initial clone is the identity; the heap-level consequences of cloning are
modelled separately below. -/

/-- `isToken(value)`: an object (or array) carrying a `$value` key; arrays
carry no such key. -/
def isToken : JVal → Bool
  | .obj fs => hasField fs ("$value")
  | _ => false

/-- A mapper result: either `mapObjectSkip` or a replacement entry. -/
inductive MapResult where
  | skip : MapResult
  | entry : String → JVal → MapResult

mutual

def mapTokensVal (m : String → JVal → MapResult) : JVal → JVal
  | .obj fs => .obj (mapTokensFields m fs)
  | .arr xs => .arr (mapTokensArr m xs)
  | v => v

def mapTokensFields (m : String → JVal → MapResult) :
    List (String × JVal) → List (String × JVal)
  | [] => []
  | (k, v) :: rest =>
    if isToken v then
      match m k v with
      | .skip => mapTokensFields m rest
      | .entry k2 v2 => (k2, v2) :: mapTokensFields m rest
    else (k, mapTokensVal m v) :: mapTokensFields m rest

def mapTokensArr (m : String → JVal → MapResult) : List JVal → List JVal
  | [] => []
  | e :: rest =>
    (if isObjLike e then mapTokensVal m e else e) :: mapTokensArr m rest

end

/-- `mapTokens(source, mapper)` on a record. -/
def mapTokens (m : String → JVal → MapResult)
    (source : List (String × JVal)) : List (String × JVal) :=
  mapTokensFields m source

/-- `key.replace(/^Family /, '')`. -/
def dropFamily (key : String) : String :=
  if List.isPrefixOf (("Family ").data) key.data then
    key.drop (("Family ").length)
  else key

/-- The font-recipe mapper (build-tailwind-tokens.ts lines 119-141): retag
`$type` to `fontFamily`, wrap the three family values with their generic CSS
fallback, and strip the `Family ` prefix from the key. -/
def fontMapper (key : String) (token : JVal) : MapResult :=
  match token with
  | JVal.obj fs =>
    let fs1 := setField fs ("$type") (JVal.str ("fontFamily"))
    let fs2 :=
      if key = ("Family Sans") then
        setField fs1 ("$value")
          (JVal.arr [(getField fs1 ("$value")).getD JVal.null,
            JVal.str ("sans-serif")])
      else if key = ("Family Serif") then
        setField fs1 ("$value")
          (JVal.arr [(getField fs1 ("$value")).getD JVal.null,
            JVal.str ("serif")])
      else if key = ("Family Mono") then
        setField fs1 ("$value")
          (JVal.arr [(getField fs1 ("$value")).getD JVal.null,
            JVal.str ("monospace")])
      else fs1
    MapResult.entry (dropFamily key) (JVal.obj fs2)
  | v => MapResult.entry (dropFamily key) v

mutual

/-- Deep absence of opening braces in every string of a value. -/
def noBraceVal : JVal → Bool
  | .str s => !hasBrace s
  | .obj fs => noBraceFields fs
  | .arr xs => noBraceArr xs
  | _ => true

def noBraceFields : List (String × JVal) → Bool
  | [] => true
  | (_, v) :: rest => noBraceVal v && noBraceFields rest

def noBraceArr : List JVal → Bool
  | [] => true
  | e :: rest => noBraceVal e && noBraceArr rest

end

/-! ## Heap-level model of reshaping (themeTokens border/ring aliasing,
build-tailwind-tokens.ts lines 100-106, and the structuredClone of
`mapTokens`)

The non-aliasing claim is about JavaScript object identity, so this part of
the development models the heap explicitly: a store of objects addressed by
reference, object fields holding either a primitive or a reference.  `omit`
(es-toolkit) and object spread each allocate a new object whose field values
— references included — are copied, so two spreads of the same `omit` result
share every child token object with each other and with the source group. -/

inductive SVal where
  | prim : String → SVal
  | ref : Nat → SVal
deriving Repr, DecidableEq

abbrev SObj := List (String × SVal)

def sGet : SObj → String → Option SVal
  | [], _ => none
  | (k, v) :: rest, key => if k = key then some v else sGet rest key

def sSet : SObj → String → SVal → SObj
  | [], key, v => [(key, v)]
  | (k, w) :: rest, key, v =>
    if k = key then (k, v) :: rest else (k, w) :: sSet rest key v

def allocObj (st : List SObj) (o : SObj) : List SObj × Nat :=
  (st ++ [o], st.length)

def getObj (st : List SObj) (r : Nat) : SObj := st.getD r []

def setObjAt (st : List SObj) (r : Nat) (o : SObj) : List SObj := st.set r o

/-- `omit(object, keys)`: a new object holding every field except the named
keys; values are copied by reference (shallow). -/
def omitAlloc (st : List SObj) (r : Nat) (keys : List String) :
    List SObj × Nat :=
  allocObj st ((getObj st r).filter (fun kv => !(keys.contains kv.1)))

/-- Object spread `\x7b...o\x7d`: a new shallow copy. -/
def spreadAlloc (st : List SObj) (r : Nat) : List SObj × Nat :=
  allocObj st (getObj st r)

/-- Lines 100-106 of the build script: the `border-color` and `ring-color`
roots are each `\x7b...omit(designTokens.Theme.Border, ['Utilities'])\x7d`
over the same source group `rBorder`. -/
def mkBorderRingRoots (st : List SObj) (rBorder : Nat) :
    List SObj × Nat × Nat :=
  let (st1, o1) := omitAlloc st rBorder [("Utilities")]
  let (st2, rBC) := spreadAlloc st1 o1
  let (st3, o2) := omitAlloc st2 rBorder [("Utilities")]
  let (st4, rRC) := spreadAlloc st3 o2
  (st4, rBC, rRC)

/-- Read a field path through the store. -/
def readPath (st : List SObj) (r : Nat) : List String → Option SVal
  | [] => none
  | [k] => sGet (getObj st r) k
  | k :: ks =>
    match sGet (getObj st r) k with
    | some (SVal.ref r2) => readPath st r2 ks
    | _ => none

/-- The reference stored under `k` in object `r`. -/
def refAt (st : List SObj) (r : Nat) (k : String) : Option Nat :=
  match sGet (getObj st r) k with
  | some (SVal.ref r2) => some r2
  | _ => none

/-- An in-place field mutation, as performed by `pxToRem` and
`rewriteReferencesInToken` on the objects they receive. -/
def writeAt (st : List SObj) (r : Nat) (k : String) (v : SVal) : List SObj :=
  setObjAt st r (sSet (getObj st r) k v)

mutual

/-- `structuredClone` of the object graph under `r`: fresh objects for every
reachable object, preserving internal sharing through the memo table.  The
fuel (consumed on every step, so that the recursion is structural) bounds the
traversal; token data is acyclic and shallow, and ample fuel is supplied at
the call sites. -/
def cloneRef : Nat → List SObj → Nat → List (Nat × Nat) →
    List SObj × Nat × List (Nat × Nat)
  | 0, st, _, memo => (st, 0, memo)
  | fuel + 1, st, r, memo =>
    match memo.find? (fun p => p.1 == r) with
    | some p => (st, p.2, memo)
    | none =>
      let (st1, nr) := allocObj st []
      let (st2, o2, memo2) := cloneFields fuel st1 (getObj st r) ((r, nr) :: memo)
      (setObjAt st2 nr o2, nr, memo2)

/-- The field loop of `cloneRef`. -/
def cloneFields : Nat → List SObj → SObj → List (Nat × Nat) →
    List SObj × SObj × List (Nat × Nat)
  | 0, st, _, memo => (st, [], memo)
  | _ + 1, st, [], memo => (st, [], memo)
  | fuel + 1, st, (k, SVal.prim s) :: rest, memo =>
    let (st1, o1, memo1) := cloneFields fuel st rest memo
    (st1, (k, SVal.prim s) :: o1, memo1)
  | fuel + 1, st, (k, SVal.ref r2) :: rest, memo =>
    let (st1, nr2, memo1) := cloneRef fuel st r2 memo
    let (st2, o2, memo2) := cloneFields fuel st1 rest memo1
    (st2, (k, SVal.ref nr2) :: o2, memo2)

end

/-- A two-token source store: reference 0 is the `Default` border token,
reference 1 the `Theme.Border` group. -/
def borderTok : SObj :=
  [(("$type"), SVal.prim ("color")), (("$value"), SVal.prim ("#000"))]

def exStore : List SObj :=
  [borderTok,
   [(("Default"), SVal.ref 0), (("Utilities"), SVal.prim ("x"))]]

def c9Built : List SObj × Nat × Nat := mkBorderRingRoots exStore 1

def c9Store : List SObj := c9Built.1

def c9Border : Nat := c9Built.2.1

def c9Ring : Nat := c9Built.2.2

/-- The token object reached through the `border-color` root. -/
def c9TokRef : Nat := (refAt c9Store c9Border ("Default")).getD 0

/-- The store after mutating that token in place. -/
def c9MutStore : List SObj :=
  writeAt c9Store c9TokRef ("$value") (SVal.prim ("1rem"))

/-- The store and root after deep-cloning the `border-color` root, as the
`structuredClone` of `mapTokens` does before any pipeline mutation. -/
def c9Cloned : List SObj × Nat × List (Nat × Nat) :=
  cloneRef 32 c9Store c9Border []

def c9CloneStore : List SObj := c9Cloned.1

def c9CloneRoot : Nat := c9Cloned.2.1

def c9CloneTokRef : Nat := (refAt c9CloneStore c9CloneRoot ("Default")).getD 0

/-- The clone's token mutated in place. -/
def c9CloneMut : List SObj :=
  writeAt c9CloneStore c9CloneTokRef ("$value") (SVal.prim ("1rem"))

/-! ## Theorems -/

/-- Updating a field makes it readable back. -/
theorem getField_setField_self (fs : List (String × JVal)) (k : String) (v : JVal) :
    getField (setField fs k v) k = some v := by
  induction fs with
  | nil => simp [setField, getField]
  | cons hd tl ih =>
    obtain ⟨k', w⟩ := hd
    by_cases h : k' = k <;> simp [setField, getField, h, ih]

/-- Updating one field leaves every other field unchanged. -/
theorem getField_setField_ne (fs : List (String × JVal)) (k k' : String) (v : JVal)
    (h : k' ≠ k) : getField (setField fs k v) k' = getField fs k' := by
  induction fs with
  | nil => simp [setField, getField, Ne.symm h]
  | cons hd tl ih =>
    obtain ⟨k0, w⟩ := hd
    by_cases h0 : k0 = k
    · subst h0
      simp [setField, getField, Ne.symm h]
    · simp [setField, getField, h0, ih]

/-- Field lookup commutes with the entry loop of `resolveModes`. -/
theorem getField_resolveFields (l d : String) (fs : List (String × JVal)) (k : String) :
    getField (resolveFields l d fs) k = (getField fs k).map (resolveValue l d) := by
  induction fs with
  | nil => simp [resolveFields, getField]
  | cons hd tl ih =>
    obtain ⟨k', v⟩ := hd
    by_cases h : k' = k <;> simp [resolveFields, getField, h, ih]

/-- A value that is not a plain object is copied through by `resolveValue`. -/
theorem resolveValue_not_obj (l d : String) (v : JVal) (h : isPlainObj v = false) :
    resolveValue l d v = v := by
  cases v <;> simp_all [resolveValue, isPlainObj]

/-- C1: for every token whose modes mapping contains both selected mode keys
(light and dark) with differing values, `resolveModes` replaces the token's
value with an expression containing exactly the two supplied mode values in
light-then-dark order: `light-dark(<light>, <dark>)` when the token's type is
color, and `var(--is-light, <light>) var(--is-dark, <dark>)` when it is
not. -/
theorem resolveModes_light_dark_collapse (l d key : String)
    (fields : List (String × JVal)) (mode : JVal) (rest : List (String × JVal))
    (hmode : extModeOf fields = some mode)
    (hl : jHasKey mode l = true) (hd : jHasKey mode d = true)
    (hne : strictEq (jGetD mode l) (jGetD mode d) = false) :
    resolveModes ((key, JVal.obj fields) :: rest) l d =
      (key, JVal.obj (setField fields ("$value") (JVal.str
        (if typeIsColor fields then lightDarkStr (jGetD mode l) (jGetD mode d)
         else varLightDarkStr (jGetD mode l) (jGetD mode d))))) ::
        resolveModes rest l d := by
  simp [resolveModes, resolveFields, resolveValue, hmode, hl, hd, hne]

/-- C1 witness: a concrete color token with Light `#fff` and Dark `#000`
resolves to the value `light-dark(#fff, #000)`. -/
theorem resolveModes_light_dark_collapse_witness :
    resolveModes ([(("bg"), JVal.obj (w1fields))]) ("Light") ("Dark") =
      [(("bg"), JVal.obj ([(("$type"), JVal.str ("color")),
        (("$value"), JVal.str ("light-dark(#fff, #000)")),
        (("$extensions"), JVal.obj ([(("mode"), w1mode)]))]))] :=
  (resolveModes_light_dark_collapse ("Light") ("Dark") ("bg") w1fields w1mode []
    rfl rfl rfl rfl).trans rfl

/-- C2 counterexample: a token whose Light and Dark mode values are both
`#eee` but whose top-level value is `#fff` resolves to `#fff`, not to the
shared mode value `#eee` demanded by the claim. -/
theorem resolveModes_equal_modes_cex :
    getJField c2mode ("Light") = some (JVal.str ("#eee")) ∧
    getJField c2mode ("Dark") = some (JVal.str ("#eee")) ∧
    entryValueStr (resolveModes ([(("t"), JVal.obj (c2fields))]) ("Light") ("Dark"))
      ("t") = some ("#fff") ∧
    entryValueStr (resolveModes ([(("t"), JVal.obj (c2fields))]) ("Light") ("Dark"))
      ("t") ≠ some ("#eee") :=
  ⟨rfl, rfl, rfl, by decide⟩

/-- C2 (amended): when the two selected mode values are strictly equal the
token is returned unchanged, so its resolved value is the token's own
top-level value (no `light-dark()` or `var(--is-...)` syntax is introduced);
it equals the shared mode value exactly when the top-level value already
agrees with it. -/
theorem resolveModes_equal_modes_short_circuit (l d key : String)
    (fields : List (String × JVal)) (mode : JVal) (rest : List (String × JVal))
    (hmode : extModeOf fields = some mode)
    (hl : jHasKey mode l = true) (hd : jHasKey mode d = true)
    (heq : strictEq (jGetD mode l) (jGetD mode d) = true) :
    resolveModes ((key, JVal.obj fields) :: rest) l d =
      (key, JVal.obj fields) :: resolveModes rest l d := by
  simp [resolveModes, resolveFields, resolveValue, hmode, hl, hd, heq]

/-- C2 witness: the concrete equal-modes token passes through unchanged. -/
theorem resolveModes_equal_modes_short_circuit_witness :
    resolveModes ([(("t"), JVal.obj (c2fields))]) ("Light") ("Dark") =
      [(("t"), JVal.obj (c2fields))] :=
  (resolveModes_equal_modes_short_circuit ("Light") ("Dark") ("t") c2fields
    c2mode [] rfl rfl rfl rfl).trans rfl

/-- C3 counterexample: a token carrying the full size triple (values `1`,
`2`, `3`) together with both selected light/dark keys (equal values) is
returned unchanged with value `v0`; the light/dark branch takes precedence,
so no size-toggle expression is produced, contrary to the claim. -/
theorem resolveModes_size_collapse_cex :
    getJField c3mode ("Base") = some (JVal.str ("1")) ∧
    getJField c3mode ("Compact") = some (JVal.str ("2")) ∧
    getJField c3mode ("Comfortable") = some (JVal.str ("3")) ∧
    entryValueStr (resolveModes ([(("t"), JVal.obj (c3fields))]) ("Light") ("Dark"))
      ("t") = some ("v0") ∧
    entryValueStr (resolveModes ([(("t"), JVal.obj (c3fields))]) ("Light") ("Dark"))
      ("t") ≠ some
        ("var(--is-size-base, 1) var(--is-size-compact, 2) var(--is-size-comfortable, 3)") :=
  ⟨rfl, rfl, rfl, rfl, by decide⟩

/-- C3 (amended): for every token whose modes mapping contains Base, Compact
and Comfortable with not all three values equal, and which does not also
contain both selected light/dark keys (the light/dark branch takes
precedence), `resolveModes` — regardless of the token's type — replaces its
value with `var(--is-size-base, <base>) var(--is-size-compact, <compact>)
var(--is-size-comfortable, <comfortable>)`, containing exactly the three
supplied values in base/compact/comfortable order. -/
theorem resolveModes_size_collapse (l d key : String)
    (fields : List (String × JVal)) (mode : JVal) (rest : List (String × JVal))
    (hmode : extModeOf fields = some mode)
    (hld : (jHasKey mode l && jHasKey mode d) = false)
    (hb : jHasKey mode ("Base") = true)
    (hc : jHasKey mode ("Compact") = true)
    (hf : jHasKey mode ("Comfortable") = true)
    (hne : (strictEq (jGetD mode ("Base")) (jGetD mode ("Compact")) &&
      strictEq (jGetD mode ("Compact")) (jGetD mode ("Comfortable"))) = false) :
    resolveModes ((key, JVal.obj fields) :: rest) l d =
      (key, JVal.obj (setField fields ("$value") (JVal.str
        (sizeToggleStr (jGetD mode ("Base")) (jGetD mode ("Compact"))
          (jGetD mode ("Comfortable")))))) :: resolveModes rest l d := by
  simp [resolveModes, resolveFields, resolveValue, hmode, hld, hb, hc, hf, hne]

/-- C3 witness: the spec's size scenario `Base 16px / Compact 12px /
Comfortable 20px` resolves to the three-way toggle expression. -/
theorem resolveModes_size_collapse_witness :
    resolveModes ([(("sp"), JVal.obj (w3fields))]) ("Light") ("Dark") =
      [(("sp"), JVal.obj ([(("$type"), JVal.str ("dimension")),
        (("$value"), JVal.str
          ("var(--is-size-base, 16px) var(--is-size-compact, 12px) var(--is-size-comfortable, 20px)")),
        (("$extensions"), JVal.obj ([(("mode"), w3mode)]))]))] :=
  (resolveModes_size_collapse ("Light") ("Dark") ("sp") w3fields w3mode []
    rfl rfl rfl rfl rfl rfl).trans rfl

/-- C4 counterexample: two input trees that differ only in a Brand #3 mode
value produce outputs that still differ — the full modes mapping, including
the other brand's value, is carried into the output rather than discarded. -/
theorem resolveModes_other_modes_cex :
    modeEntryStr (resolveModes ([(("t"), JVal.obj (c4fields ("A")))]) ("Light")
      ("Dark")) ("t") ("Brand #3 - Light") = some ("A") ∧
    modeEntryStr (resolveModes ([(("t"), JVal.obj (c4fields ("B")))]) ("Light")
      ("Dark")) ("t") ("Brand #3 - Light") = some ("B") ∧
    resolveModes ([(("t"), JVal.obj (c4fields ("A")))]) ("Light") ("Dark") ≠
      resolveModes ([(("t"), JVal.obj (c4fields ("B")))]) ("Light") ("Dark") := by
  refine ⟨rfl, rfl, fun h => ?_⟩
  have h2 := congrArg (fun r => modeEntryStr r ("t") ("Brand #3 - Light")) h
  simp only [] at h2
  rw [show modeEntryStr (resolveModes ([(("t"), JVal.obj (c4fields ("A")))])
    ("Light") ("Dark")) ("t") ("Brand #3 - Light") = some ("A") from rfl,
    show modeEntryStr (resolveModes ([(("t"), JVal.obj (c4fields ("B")))])
    ("Light") ("Dark")) ("t") ("Brand #3 - Light") = some ("B") from rfl] at h2
  exact Option.noConfusion h2 (fun h3 => by simp at h3)

/-- C4 (amended): the resolved `$value` of a token with a full light/dark
match is computed from the selected dimension's entries only — two tokens
agreeing on their selected light/dark mode values, their `$value` and their
`$type` get identical resolved values, whatever other brands' mode values
they carry; the full modes mapping itself, however, is retained in the
output, not discarded. -/
theorem resolveModes_value_ignores_other_modes (l d : String)
    (f1 f2 : List (String × JVal)) (m1 m2 : JVal)
    (h1 : extModeOf f1 = some m1) (h2 : extModeOf f2 = some m2)
    (hl1 : jHasKey m1 l = true) (hd1 : jHasKey m1 d = true)
    (hl2 : jHasKey m2 l = true) (hd2 : jHasKey m2 d = true)
    (hvl : jGetD m1 l = jGetD m2 l) (hvd : jGetD m1 d = jGetD m2 d)
    (hv : getField f1 ("$value") = getField f2 ("$value"))
    (ht : getField f1 ("$type") = getField f2 ("$type")) :
    getJField (resolveValue l d (JVal.obj f1)) ("$value") =
      getJField (resolveValue l d (JVal.obj f2)) ("$value") := by
  have htc : typeIsColor f1 = typeIsColor f2 := by
    simp [typeIsColor, ht]
  by_cases heq : strictEq (jGetD m1 l) (jGetD m1 d) = true
  · have heq2 : strictEq (jGetD m2 l) (jGetD m2 d) = true := by
      rw [← hvl, ← hvd]; exact heq
    simp [resolveValue, h1, h2, hl1, hd1, hl2, hd2, heq, heq2, getJField, hv]
  · have heq2 : ¬ strictEq (jGetD m2 l) (jGetD m2 d) = true := by
      rw [← hvl, ← hvd]; exact heq
    simp [resolveValue, h1, h2, hl1, hd1, hl2, hd2, heq, heq2, getJField,
      getField_setField_self, hvl, hvd, htc]

/-- C4 witness: two concrete tokens differing only in the Brand #3 mode value
receive the same resolved value. -/
theorem resolveModes_value_ignores_other_modes_witness :
    getJField (resolveValue ("Light") ("Dark") (JVal.obj (c4fields ("A"))))
      ("$value") =
    getJField (resolveValue ("Light") ("Dark") (JVal.obj (c4fields ("B"))))
      ("$value") :=
  resolveModes_value_ignores_other_modes ("Light") ("Dark") (c4fields ("A"))
    (c4fields ("B")) (c4mode ("A")) (c4mode ("B")) rfl rfl rfl rfl rfl rfl
    rfl rfl rfl rfl

/-- C5 counterexample: a token with a partial light/dark match whose `$value`
is itself an object of full token shape does not pass through unchanged —
resolution recurses into the token's fields and collapses the nested object,
so the token's top-level value changes. -/
theorem resolveModes_partial_match_cex :
    jHasKey c5mode ("Light") = true ∧
    jHasKey c5mode ("Dark") = false ∧
    innerValueStr ([(("t"), JVal.obj (c5fields))]) ("t") = some ("a") ∧
    innerValueStr (resolveModes ([(("t"), JVal.obj (c5fields))]) ("Light")
      ("Dark")) ("t") = some ("var(--is-light, 1) var(--is-dark, 2)") ∧
    (some ("var(--is-light, 1) var(--is-dark, 2)") : Option String) ≠
      some ("a") :=
  ⟨rfl, rfl, rfl, rfl, by decide⟩

/-- C5 (amended): a token whose modes mapping only partially matches the
selected dimension and matches no size dimension is not collapsed and raises
no error (`resolveValue` is total); resolution recurses into its fields, so
its top-level value is unchanged whenever that value is not itself a plain
object. -/
theorem resolveModes_partial_match_passthrough (l d : String)
    (fields : List (String × JVal)) (mode : JVal) (v : JVal)
    (hmode : extModeOf fields = some mode)
    (hld : (jHasKey mode l && jHasKey mode d) = false)
    (hsz : (jHasKey mode ("Base") && jHasKey mode ("Compact") &&
      jHasKey mode ("Comfortable")) = false)
    (hv : getField fields ("$value") = some v)
    (hno : isPlainObj v = false) :
    getJField (resolveValue l d (JVal.obj fields)) ("$value") = some v := by
  simp [resolveValue, hmode, hld, hsz, getJField, getField_resolveFields, hv,
    resolveValue_not_obj l d v hno]

/-- C5 witness: a concrete partial-match token with a plain string value keeps
that value. -/
theorem resolveModes_partial_match_passthrough_witness :
    getJField (resolveValue ("Light") ("Dark") (JVal.obj (w5fields)))
      ("$value") = some (JVal.str ("#abc")) :=
  resolveModes_partial_match_passthrough ("Light") ("Dark") w5fields w5mode
    (JVal.str ("#abc")) rfl rfl rfl rfl rfl

/-- Decomposition of a successful `tailBody` match. -/
theorem tailBody_eq (u : List Char) :
    ∀ j body r2, tailBody u j = some (body, r2) →
      u = body ++ cbr :: r2 ∧ body ≠ [] ∧ body.all dotChar = true := by
  intro j
  induction j with
  | zero => intro body r2 h; simp [tailBody] at h
  | succ j ih =>
    intro body r2 h
    rw [tailBody] at h
    split at h
    · rename_i hall
      split at h
      · rename_i c r2' hr
        split at h
        · rename_i hc
          obtain ⟨h1, h2⟩ := Prod.mk.injEq .. ▸ Option.some.injEq .. ▸ h
          subst hc h1 h2
          refine ⟨?_, ?_, hall⟩
          · conv_lhs => rw [← List.take_append_drop (j + 1) u]
            rw [hr]
          · intro hnil
            have hlen : u.length ≤ j + 1 := by
              by_contra hlt
              push_neg at hlt
              have : (u.take (j + 1)).length = j + 1 := by
                simp [List.length_take]
                omega
              rw [hnil] at this
              simp at this
            have : u.drop (j + 1) = [] := List.drop_eq_nil_of_le hlen
            rw [this] at hr
            exact List.noConfusion hr
        · exact ih body r2 h
      · exact ih body r2 h
    · exact ih body r2 h

/-- Decomposition of a successful `tailGroupA` match: the consumed text is
the captured group followed by a closing brace, and the group is empty or a
space followed by a nonempty dot-run. -/
theorem tailGroupA_eq (t : List Char) (g2 r : List Char)
    (h : tailGroupA t = some (g2, r)) :
    t = g2 ++ cbr :: r ∧
      (g2 = [] ∨ ∃ body, g2 = ' ' :: body ∧ body.all dotChar = true) := by
  match t, h with
  | c :: u, h =>
    rw [tailGroupA] at h
    split at h
    · rename_i hsp
      subst hsp
      split at h
      · rename_i body r' hb
        obtain ⟨hbody, hne, hall⟩ := tailBody_eq u u.length body r' hb
        obtain ⟨h1, h2⟩ := Prod.mk.injEq .. ▸ Option.some.injEq .. ▸ h
        subst h1 h2
        exact ⟨by rw [hbody]; rfl, Or.inr ⟨body, rfl, hall⟩⟩
      · exact absurd h (by simp)
    · split at h
      · rename_i hc
        subst hc
        obtain ⟨h1, h2⟩ := Prod.mk.injEq .. ▸ Option.some.injEq .. ▸ h
        subst h1 h2
        exact ⟨rfl, Or.inl rfl⟩
      · exact absurd h (by simp)

/-- Decomposition of a successful `matchTailA` match. -/
theorem matchTailA_eq (lit rest0 : List Char) :
    ∀ i g1 g2 r, matchTailA lit rest0 i = some (g1, g2, r) →
      rest0 = g1 ++ '.' :: lit ++ g2 ++ cbr :: r ∧ g1 ≠ [] ∧
        g1.all dotChar = true ∧
        (g2 = [] ∨ ∃ body, g2 = ' ' :: body ∧ body.all dotChar = true) := by
  intro i
  induction i with
  | zero => intro g1 g2 r h; simp [matchTailA] at h
  | succ i ih =>
    intro g1 g2 r h
    rw [matchTailA] at h
    split at h
    · rename_i hguard
      obtain ⟨hall, hpre⟩ := Bool.and_eq_true .. ▸ hguard
      split at h
      · rename_i g2' r' hg
        obtain ⟨h1, h2, h3⟩ :=
          Prod.mk.injEq .. ▸ Prod.mk.injEq .. ▸ Option.some.injEq .. ▸ h
        subst h1 h2 h3
        have hpre2 : ('.' :: lit) <+: rest0.drop (i + 1) :=
          List.isPrefixOf_iff_prefix.mp hpre
        have hsplit : ('.' :: lit) ++
            (rest0.drop (i + 1)).drop (lit.length + 1) = rest0.drop (i + 1) := by
          have := List.prefix_iff_eq_append.mp hpre2
          simpa using this
        obtain ⟨hg2, hshape⟩ := tailGroupA_eq _ _ _ hg
        have hne : rest0.take (i + 1) ≠ [] := by
          intro hnil
          have : rest0 = [] := by
            rcases rest0 with _ | ⟨a, as⟩
            · rfl
            · simp [List.take_succ_cons] at hnil
          subst this
          simp [List.isPrefixOf] at hpre
        refine ⟨?_, hne, hall, hshape⟩
        conv_lhs => rw [← List.take_append_drop (i + 1) rest0]
        rw [← hsplit, hg2]
        simp
      · exact ih g1 g2 r h
    · exact ih g1 g2 r h

/-- Decomposition of a successful `matchA` match: the input is the pattern
prefix, the first capture, the literal separator, the second capture and the
closing brace, followed by the remainder. -/
theorem matchA_eq (pre lit s : List Char) (g1 g2 r : List Char)
    (h : matchA pre lit s = some (g1, g2, r)) :
    s = pre ++ g1 ++ '.' :: lit ++ g2 ++ cbr :: r ∧ g1 ≠ [] ∧
      g1.all dotChar = true ∧
      (g2 = [] ∨ ∃ body, g2 = ' ' :: body ∧ body.all dotChar = true) := by
  rw [matchA] at h
  split at h
  · rename_i hpre
    have hpre2 : pre <+: s := List.isPrefixOf_iff_prefix.mp hpre
    have hsplit : pre ++ s.drop pre.length = s :=
      List.prefix_iff_eq_append.mp hpre2 |>.symm ▸ rfl
    obtain ⟨hd, hne, hall, hshape⟩ := matchTailA_eq lit _ _ g1 g2 r h
    refine ⟨?_, hne, hall, hshape⟩
    conv_lhs => rw [← hsplit]
    rw [hd]
    simp
  · exact Option.noConfusion h

/-- Decomposition of a successful `matchTailB` match. -/
theorem matchTailB_eq (rest0 : List Char) :
    ∀ i g1 r, matchTailB rest0 i = some (g1, r) →
      rest0 = g1 ++ famSep ++ r ∧ g1 ≠ [] ∧ g1.all dotChar = true := by
  intro i
  induction i with
  | zero => intro g1 r h; simp [matchTailB] at h
  | succ i ih =>
    intro g1 r h
    rw [matchTailB] at h
    split at h
    · rename_i hguard
      obtain ⟨hall, hpre⟩ := Bool.and_eq_true .. ▸ hguard
      obtain ⟨h1, h2⟩ := Prod.mk.injEq .. ▸ Option.some.injEq .. ▸ h
      subst h1 h2
      have hpre2 : famSep <+: rest0.drop (i + 1) :=
        List.isPrefixOf_iff_prefix.mp hpre
      have hsplit : famSep ++ (rest0.drop (i + 1)).drop famSep.length =
          rest0.drop (i + 1) := by
        have := List.prefix_iff_eq_append.mp hpre2
        simpa using this
      have hne : rest0.take (i + 1) ≠ [] := by
        intro hnil
        have : rest0 = [] := by
          rcases rest0 with _ | ⟨a, as⟩
          · rfl
          · simp [List.take_succ_cons] at hnil
        subst this
        simp [famSep, List.isPrefixOf] at hpre
      refine ⟨?_, hne, hall⟩
      conv_lhs => rw [← List.take_append_drop (i + 1) rest0]
      rw [← hsplit]
      simp
    · exact ih g1 r h

/-- Decomposition of a successful `matchB` match. -/
theorem matchB_eq (s : List Char) (g1 r : List Char)
    (h : matchB s = some (g1, r)) :
    s = preTypo ++ g1 ++ famSep ++ r ∧ g1 ≠ [] ∧ g1.all dotChar = true := by
  rw [matchB] at h
  split at h
  · rename_i hpre
    have hpre2 : preTypo <+: s := List.isPrefixOf_iff_prefix.mp hpre
    have hsplit : preTypo ++ s.drop preTypo.length = s :=
      List.prefix_iff_eq_append.mp hpre2 |>.symm ▸ rfl
    obtain ⟨hd, hne, hall⟩ := matchTailB_eq _ _ g1 r h
    refine ⟨?_, hne, hall⟩
    conv_lhs => rw [← hsplit]
    rw [hd]
    simp
  · exact Option.noConfusion h

/-- Prefix check fails on differing head characters. -/
theorem isPrefixOf_cons_false (x : Char) (xs : List Char) (c : Char)
    (cs : List Char) (h : x ≠ c) :
    List.isPrefixOf (x :: xs) (c :: cs) = false := by
  rw [Bool.eq_false_iff]
  intro hp
  exact h ((List.cons_prefix_cons.mp (List.isPrefixOf_iff_prefix.mp hp)).1)

theorem Bfree_append (a b : List Char) : Bfree (a ++ b) ↔ Bfree a ∧ Bfree b := by
  simp [Bfree, List.mem_append, not_or]

theorem Bfree_cons (c : Char) (l : List Char) :
    Bfree (c :: l) ↔ obr ≠ c ∧ Bfree l := by
  simp [Bfree, List.mem_cons, not_or]

/-- No rules-1-to-4 match can begin at a character other than an opening
brace. -/
theorem matchA_none_head (pt lit : List Char) (c : Char) (cs : List Char)
    (hc : c ≠ obr) : matchA (obr :: pt) lit (c :: cs) = none := by
  rw [matchA, isPrefixOf_cons_false obr pt c cs (Ne.symm hc)]
  rfl

/-- No rules-1-to-4 match can begin at an opening brace that is followed by a
character other than the pattern's collection initial. -/
theorem matchA_none_second (u : Char) (pt lit : List Char) (h : Char)
    (α : List Char) (hu : h ≠ u) :
    matchA (obr :: u :: pt) lit (obr :: h :: α) = none := by
  rw [matchA]
  have : List.isPrefixOf (obr :: u :: pt) (obr :: h :: α) = false := by
    rw [Bool.eq_false_iff]
    intro hp
    have h2 := List.isPrefixOf_iff_prefix.mp hp
    have h3 := (List.cons_prefix_cons.mp h2).2
    exact hu ((List.cons_prefix_cons.mp h3).1.symm
      ▸ rfl)
  rw [this]
  rfl

theorem matchA_none_nil (x : Char) (pt lit : List Char) :
    matchA (x :: pt) lit [] = none := by
  rw [matchA]
  have : List.isPrefixOf (x :: pt) ([] : List Char) = false := rfl
  rw [this]
  rfl

/-- A scan pass over a brace-free list is the identity (no pattern can start
anywhere), for any fuel. -/
theorem scanAF_bfree (pt lit target : List Char) :
    ∀ fuel l, Bfree l → scanAF (obr :: pt) lit target fuel l = l := by
  intro fuel
  induction fuel with
  | zero => intro l _; rfl
  | succ f ih =>
    intro l hl
    match l with
    | [] => rfl
    | c :: cs =>
      have hc : c ≠ obr := fun h => hl (h ▸ List.mem_cons_self c cs)
      have ht : Bfree cs := fun h => hl (List.mem_cons_of_mem c h)
      simp only [scanAF, matchA_none_head pt lit c cs hc]
      rw [ih cs ht]

/-- A scan pass walks over a brace-free prefix unchanged, spending one unit
of fuel per character. -/
theorem scanAF_append_bfree (pt lit target : List Char) :
    ∀ p fuel rest, Bfree p → p.length + rest.length ≤ fuel →
      scanAF (obr :: pt) lit target fuel (p ++ rest) =
        p ++ scanAF (obr :: pt) lit target (fuel - p.length) rest := by
  intro p
  induction p with
  | nil => intro fuel rest _ _; simp
  | cons c p ih =>
    intro fuel rest hb hf
    obtain ⟨hc, hbp⟩ := (Bfree_cons c p).mp hb
    match fuel with
    | 0 => simp at hf
    | f + 1 =>
      simp only [List.cons_append, scanAF,
        matchA_none_head pt lit c _ (Ne.symm hc), List.append_eq]
      rw [ih f rest hbp (by simp at hf; omega)]
      simp [Nat.succ_sub_succ]

/-- Closing brace and opening brace differ. -/
theorem obr_ne_cbr : obr ≠ cbr := by decide

/-- A scan pass over a list with a single opening brace either changes
nothing or produces a `Locked` list: the brace survives as the single brace,
now followed by the replacement's lowercase target head. -/
theorem scanAF_onebrace (pt lit : List Char) (h0 : Char) (tT : List Char)
    (hmem : h0 ∈ lowHeads) (htb : Bfree (h0 :: tT))
    (p q : List Char) (fuel : Nat)
    (hp : Bfree p) (hq : Bfree q) (hfuel : (p ++ obr :: q).length ≤ fuel) :
    scanAF (obr :: pt) lit (h0 :: tT) fuel (p ++ obr :: q) = p ++ obr :: q ∨
      Locked (scanAF (obr :: pt) lit (h0 :: tT) fuel (p ++ obr :: q)) := by
  have hfuel2 : p.length + (obr :: q).length ≤ fuel := by
    simpa using hfuel
  rw [scanAF_append_bfree pt lit (h0 :: tT) p fuel (obr :: q) hp hfuel2]
  obtain ⟨f2, hf2⟩ : ∃ f2, fuel - p.length = f2 + 1 := by
    refine ⟨fuel - p.length - 1, ?_⟩
    simp at hfuel2
    omega
  rw [hf2]
  cases hm : matchA (obr :: pt) lit (obr :: q) with
  | none =>
    simp only [scanAF, hm]
    rw [scanAF_bfree pt lit (h0 :: tT) f2 q hq]
    exact Or.inl rfl
  | some g =>
    obtain ⟨g1, g2, r⟩ := g
    obtain ⟨hdec, hne, hall, hshape⟩ := matchA_eq _ _ _ _ _ _ hm
    have hq' : q = pt ++ (g1 ++ '.' :: (lit ++ (g2 ++ cbr :: r))) := by
      have h2 := hdec
      simp only [List.cons_append, List.append_assoc] at h2
      exact (List.cons.injEq .. ▸ h2).2
    have hqmem : ∀ x : Char, x ∈ g1 ∨ x ∈ g2 ∨ x ∈ r → x ∈ q := by
      intro x hx
      rw [hq']
      simp only [List.mem_append, List.mem_cons]
      tauto
    have hg1 : Bfree g1 := fun hm => hq (hqmem obr (Or.inl hm))
    have hg2 : Bfree g2 := fun hm => hq (hqmem obr (Or.inr (Or.inl hm)))
    have hr : Bfree r := fun hm => hq (hqmem obr (Or.inr (Or.inr hm)))
    simp only [scanAF, hm]
    rw [scanAF_bfree pt lit (h0 :: tT) f2 r hr]
    refine Or.inr ⟨p, h0, tT ++ g1 ++ g2 ++ cbr :: r, ?_, hp, ?_, hmem⟩
    · simp [List.append_assoc]
    · obtain ⟨hh0, htT⟩ := (Bfree_cons h0 tT).mp htb
      intro hmem2
      simp only [List.mem_cons, List.mem_append] at hmem2
      have h5 : ¬ (obr = cbr) := obr_ne_cbr
      have htT2 : ¬ (obr ∈ tT) := htT
      have hg1b : ¬ (obr ∈ g1) := hg1
      have hg2b : ¬ (obr ∈ g2) := hg2
      have hrb : ¬ (obr ∈ r) := hr
      tauto

/-- A scan pass with an uppercase-initial pattern fixes every `Locked`
list. -/
theorem scanAF_locked (u : Char) (pt lit target : List Char) (l : List Char)
    (fuel : Nat) (hu : ∀ x ∈ lowHeads, x ≠ u) (hl : Locked l)
    (hfuel : l.length ≤ fuel) :
    scanAF (obr :: u :: pt) lit target fuel l = l := by
  obtain ⟨p, h0, α, rfl, hp, hq, hmem⟩ := hl
  have hfuel2 : p.length + (obr :: h0 :: α).length ≤ fuel := by
    simpa using hfuel
  rw [scanAF_append_bfree (u :: pt) lit target p fuel (obr :: h0 :: α) hp hfuel2]
  obtain ⟨f2, hf2⟩ : ∃ f2, fuel - p.length = f2 + 1 := by
    refine ⟨fuel - p.length - 1, ?_⟩
    simp at hfuel2
    omega
  rw [hf2]
  simp only [scanAF, matchA_none_second u pt lit h0 α (hu h0 hmem)]
  rw [scanAF_bfree (u :: pt) lit target f2 (h0 :: α) hq]

/-- Structural view of the rule-9 pattern prefix. -/
theorem preTypo_eq : preTypo = obr :: ('T') :: ("ypography Primitives.").data := rfl

theorem matchB_none_head (c : Char) (cs : List Char) (hc : c ≠ obr) :
    matchB (c :: cs) = none := by
  rw [matchB, preTypo_eq,
    isPrefixOf_cons_false obr _ c cs (Ne.symm hc)]
  rfl

theorem matchB_none_second (h : Char) (α : List Char) (hu : h ≠ ('T')) :
    matchB (obr :: h :: α) = none := by
  rw [matchB, preTypo_eq]
  have : List.isPrefixOf (obr :: ('T') :: ("ypography Primitives.").data)
      (obr :: h :: α) = false := by
    rw [Bool.eq_false_iff]
    intro hp
    have h2 := List.isPrefixOf_iff_prefix.mp hp
    have h3 := (List.cons_prefix_cons.mp h2).2
    exact hu ((List.cons_prefix_cons.mp h3).1.symm ▸ rfl)
  rw [this]
  rfl

theorem scanBF_bfree : ∀ fuel l, Bfree l → scanBF fuel l = l := by
  intro fuel
  induction fuel with
  | zero => intro l _; rfl
  | succ f ih =>
    intro l hl
    match l with
    | [] => rfl
    | c :: cs =>
      have hc : c ≠ obr := fun h => hl (h ▸ List.mem_cons_self c cs)
      have ht : Bfree cs := fun h => hl (List.mem_cons_of_mem c h)
      simp only [scanBF, matchB_none_head c cs hc]
      rw [ih cs ht]

theorem scanBF_append_bfree :
    ∀ p fuel rest, Bfree p → p.length + rest.length ≤ fuel →
      scanBF fuel (p ++ rest) = p ++ scanBF (fuel - p.length) rest := by
  intro p
  induction p with
  | nil => intro fuel rest _ _; simp
  | cons c p ih =>
    intro fuel rest hb hf
    obtain ⟨hc, hbp⟩ := (Bfree_cons c p).mp hb
    match fuel with
    | 0 => simp at hf
    | f + 1 =>
      simp only [List.cons_append, scanBF, matchB_none_head c _ (Ne.symm hc),
        List.append_eq]
      rw [ih f rest hbp (by simp at hf; omega)]
      simp [Nat.succ_sub_succ]

/-- The rule-9 pass over a single-brace list either changes nothing or locks
the list behind the lowercase head `f` of its replacement `\x7bfont.$1.`. -/
theorem scanBF_onebrace (p q : List Char) (fuel : Nat)
    (hp : Bfree p) (hq : Bfree q) (hfuel : (p ++ obr :: q).length ≤ fuel) :
    scanBF fuel (p ++ obr :: q) = p ++ obr :: q ∨
      Locked (scanBF fuel (p ++ obr :: q)) := by
  have hfuel2 : p.length + (obr :: q).length ≤ fuel := by simpa using hfuel
  rw [scanBF_append_bfree p fuel (obr :: q) hp hfuel2]
  obtain ⟨f2, hf2⟩ : ∃ f2, fuel - p.length = f2 + 1 := by
    refine ⟨fuel - p.length - 1, ?_⟩
    simp at hfuel2
    omega
  rw [hf2]
  cases hm : matchB (obr :: q) with
  | none =>
    simp only [scanBF, hm]
    rw [scanBF_bfree f2 q hq]
    exact Or.inl rfl
  | some g =>
    obtain ⟨g1, r⟩ := g
    obtain ⟨hdec, hne, hall⟩ := matchB_eq _ _ _ hm
    have hq' : q = ('T') :: (("ypography Primitives.").data ++
        (g1 ++ (famSep ++ r))) := by
      have h2 := hdec
      rw [preTypo_eq] at h2
      simp only [List.cons_append, List.append_assoc] at h2
      exact (List.cons.injEq .. ▸ h2).2
    have hqmem : ∀ x : Char, x ∈ g1 ∨ x ∈ r → x ∈ q := by
      intro x hx
      rw [hq']
      simp only [List.mem_append, List.mem_cons]
      tauto
    have hg1 : Bfree g1 := fun hm2 => hq (hqmem obr (Or.inl hm2))
    have hr : Bfree r := fun hm2 => hq (hqmem obr (Or.inr hm2))
    simp only [scanBF, hm]
    rw [scanBF_bfree f2 r hr]
    refine Or.inr ⟨p, ('f'), ("ont.").data ++ g1 ++ '.' :: r, ?_, hp, ?_,
      by decide⟩
    · simp [List.append_assoc]
    · intro hmem2
      simp only [List.mem_cons, List.mem_append] at hmem2
      have h5 : ¬ (obr ∈ ("ont.").data) := by decide
      have h6 : ¬ (obr = ('f')) := by decide
      have h7 : ¬ (obr = ('.')) := by decide
      have hg1b : ¬ (obr ∈ g1) := hg1
      have hrb : ¬ (obr ∈ r) := hr
      tauto

theorem scanBF_locked (l : List Char) (fuel : Nat) (hl : Locked l)
    (hfuel : l.length ≤ fuel) : scanBF fuel l = l := by
  obtain ⟨p, h0, α, rfl, hp, hq, hmem⟩ := hl
  have hfuel2 : p.length + (obr :: h0 :: α).length ≤ fuel := by simpa using hfuel
  rw [scanBF_append_bfree p fuel (obr :: h0 :: α) hp hfuel2]
  obtain ⟨f2, hf2⟩ : ∃ f2, fuel - p.length = f2 + 1 := by
    refine ⟨fuel - p.length - 1, ?_⟩
    simp at hfuel2
    omega
  rw [hf2]
  have hne : h0 ≠ ('T') := by
    revert hmem
    rw [lowHeads]
    intro hmem
    fin_cases hmem <;> decide
  simp only [scanBF, matchB_none_second h0 α hne]
  rw [scanBF_bfree f2 (h0 :: α) hq]

theorem isPrefixOf_cons2_false (x u : Char) (xs : List Char) (h : Char)
    (α : List Char) (hu : h ≠ u) :
    List.isPrefixOf (x :: u :: xs) (x :: h :: α) = false := by
  rw [Bool.eq_false_iff]
  intro hp
  have h2 := List.isPrefixOf_iff_prefix.mp hp
  have h3 := (List.cons_prefix_cons.mp h2).2
  exact hu (List.cons_prefix_cons.mp h3).1.symm

theorem repLitF_bfree (pt2 repl : List Char) :
    ∀ fuel l, Bfree l → repLitF (obr :: pt2) repl fuel l = l := by
  intro fuel
  induction fuel with
  | zero => intro l _; rfl
  | succ f ih =>
    intro l hl
    match l with
    | [] => rfl
    | c :: cs =>
      have hc : c ≠ obr := fun h => hl (h ▸ List.mem_cons_self c cs)
      have ht : Bfree cs := fun h => hl (List.mem_cons_of_mem c h)
      simp only [repLitF, isPrefixOf_cons_false obr pt2 c cs (Ne.symm hc),
        Bool.false_eq_true, if_false]
      rw [ih cs ht]

theorem repLitF_append_bfree (pt2 repl : List Char) :
    ∀ p fuel rest, Bfree p → p.length + rest.length ≤ fuel →
      repLitF (obr :: pt2) repl fuel (p ++ rest) =
        p ++ repLitF (obr :: pt2) repl (fuel - p.length) rest := by
  intro p
  induction p with
  | nil => intro fuel rest _ _; simp
  | cons c p ih =>
    intro fuel rest hb hf
    obtain ⟨hc, hbp⟩ := (Bfree_cons c p).mp hb
    match fuel with
    | 0 => simp at hf
    | f + 1 =>
      simp only [List.cons_append, repLitF,
        isPrefixOf_cons_false obr pt2 c _ hc, Bool.false_eq_true,
        if_false, List.append_eq]
      rw [ih f rest hbp (by simp at hf; omega)]
      simp [Nat.succ_sub_succ]

/-- A literal-rule pass over a single-brace list either changes nothing or
locks the list behind its replacement's lowercase head. -/
theorem repLitF_onebrace (pt2 : List Char) (h0 : Char) (rT : List Char)
    (hmem : h0 ∈ lowHeads) (hrT : Bfree (h0 :: rT))
    (p q : List Char) (fuel : Nat)
    (hp : Bfree p) (hq : Bfree q) (hfuel : (p ++ obr :: q).length ≤ fuel) :
    repLitF (obr :: pt2) (obr :: h0 :: rT) fuel (p ++ obr :: q) =
      p ++ obr :: q ∨
      Locked (repLitF (obr :: pt2) (obr :: h0 :: rT) fuel (p ++ obr :: q)) := by
  have hfuel2 : p.length + (obr :: q).length ≤ fuel := by simpa using hfuel
  rw [repLitF_append_bfree pt2 (obr :: h0 :: rT) p fuel (obr :: q) hp hfuel2]
  obtain ⟨f2, hf2⟩ : ∃ f2, fuel - p.length = f2 + 1 := by
    refine ⟨fuel - p.length - 1, ?_⟩
    simp at hfuel2
    omega
  rw [hf2]
  cases hpre : List.isPrefixOf (obr :: pt2) (obr :: q) with
  | false =>
    simp only [repLitF, hpre, Bool.false_eq_true, if_false]
    rw [repLitF_bfree pt2 (obr :: h0 :: rT) f2 q hq]
    exact Or.inl rfl
  | true =>
    simp only [repLitF, hpre, if_true]
    have hpre2 : (obr :: pt2) <+: (obr :: q) :=
      List.isPrefixOf_iff_prefix.mp hpre
    have hsplit : (obr :: pt2) ++ (obr :: q).drop (obr :: pt2).length =
        obr :: q := by
      have := List.prefix_iff_eq_append.mp hpre2
      simpa using this
    have hdropq : (obr :: q).drop (obr :: pt2).length = q.drop pt2.length := by
      simp
    have hrest : Bfree ((obr :: q).drop (obr :: pt2).length) := by
      rw [hdropq]
      intro hm
      exact hq (List.mem_of_mem_drop hm)
    rw [repLitF_bfree pt2 (obr :: h0 :: rT) f2 _ hrest]
    refine Or.inr ⟨p, h0, rT ++ (obr :: q).drop (obr :: pt2).length, ?_, hp,
      ?_, hmem⟩
    · simp [List.append_assoc]
    · intro hmem2
      simp only [List.mem_cons, List.mem_append] at hmem2
      have h6 : ¬ (obr = h0) := ((Bfree_cons h0 rT).mp hrT).1
      have h7 : ¬ (obr ∈ rT) := ((Bfree_cons h0 rT).mp hrT).2
      have h8 : ¬ (obr ∈ (obr :: q).drop (obr :: pt2).length) := hrest
      tauto

theorem repLitF_locked (u : Char) (pt2 repl : List Char) (l : List Char)
    (fuel : Nat) (hu : ∀ x ∈ lowHeads, x ≠ u) (hl : Locked l)
    (hfuel : l.length ≤ fuel) :
    repLitF (obr :: u :: pt2) repl fuel l = l := by
  obtain ⟨p, h0, α, rfl, hp, hq, hmem⟩ := hl
  have hfuel2 : p.length + (obr :: h0 :: α).length ≤ fuel := by simpa using hfuel
  rw [repLitF_append_bfree (u :: pt2) repl p fuel (obr :: h0 :: α) hp hfuel2]
  obtain ⟨f2, hf2⟩ : ∃ f2, fuel - p.length = f2 + 1 := by
    refine ⟨fuel - p.length - 1, ?_⟩
    simp at hfuel2
    omega
  rw [hf2]
  simp only [repLitF, isPrefixOf_cons2_false obr u pt2 h0 α (hu h0 hmem),
    Bool.false_eq_true, if_false]
  rw [repLitF_bfree (u :: pt2) repl f2 (h0 :: α) hq]

theorem preTheme_eq : preTheme = obr :: ('T') :: ("heme.").data := rfl

/-- Any rules-1-to-4 pass fixes brace-free lists. -/
theorem ruleA_bfree (lit target l : List Char) (h : Bfree l) :
    runA preTheme lit target l = l := by
  rw [runA, preTheme_eq]
  exact scanAF_bfree _ _ _ _ l h

/-- Any rules-1-to-4 pass fixes `Locked` lists. -/
theorem ruleA_locked (lit target l : List Char) (h : Locked l) :
    runA preTheme lit target l = l := by
  rw [runA, preTheme_eq]
  exact scanAF_locked ('T') _ lit target l _ (by decide) h (le_refl _)

/-- Any rules-1-to-4 pass maps a single-brace list to itself or to a `Locked`
list. -/
theorem ruleA_onebrace (lit : List Char) (h0 : Char) (tT : List Char)
    (hm : h0 ∈ lowHeads) (ht : Bfree (h0 :: tT)) (p q : List Char)
    (hp : Bfree p) (hq : Bfree q) :
    runA preTheme lit (h0 :: tT) (p ++ obr :: q) = p ++ obr :: q ∨
      Locked (runA preTheme lit (h0 :: tT) (p ++ obr :: q)) := by
  rw [runA, preTheme_eq]
  exact scanAF_onebrace _ lit h0 tT hm ht p q _ hp hq (le_refl _)

theorem rule1_bfree (l : List Char) (h : Bfree l) : rule1 l = l :=
  ruleA_bfree litFontFamily tgtFont l h

theorem rule2_bfree (l : List Char) (h : Bfree l) : rule2 l = l :=
  ruleA_bfree litFontSize tgtText l h

theorem rule3_bfree (l : List Char) (h : Bfree l) : rule3 l = l :=
  ruleA_bfree litLetterSpacing tgtTracking l h

theorem rule4_bfree (l : List Char) (h : Bfree l) : rule4 l = l :=
  ruleA_bfree litLineHeight tgtLeading l h

theorem rule1_locked (l : List Char) (h : Locked l) : rule1 l = l :=
  ruleA_locked litFontFamily tgtFont l h

theorem rule2_locked (l : List Char) (h : Locked l) : rule2 l = l :=
  ruleA_locked litFontSize tgtText l h

theorem rule3_locked (l : List Char) (h : Locked l) : rule3 l = l :=
  ruleA_locked litLetterSpacing tgtTracking l h

theorem rule4_locked (l : List Char) (h : Locked l) : rule4 l = l :=
  ruleA_locked litLineHeight tgtLeading l h

theorem rule1_onebrace (p q : List Char) (hp : Bfree p) (hq : Bfree q) :
    rule1 (p ++ obr :: q) = p ++ obr :: q ∨ Locked (rule1 (p ++ obr :: q)) := by
  rw [rule1, show tgtFont = ('f') :: ("ont.").data from rfl]
  exact ruleA_onebrace litFontFamily ('f') _ (by decide) (by decide) p q hp hq

theorem rule2_onebrace (p q : List Char) (hp : Bfree p) (hq : Bfree q) :
    rule2 (p ++ obr :: q) = p ++ obr :: q ∨ Locked (rule2 (p ++ obr :: q)) := by
  rw [rule2, show tgtText = ('t') :: ("ext.").data from rfl]
  exact ruleA_onebrace litFontSize ('t') _ (by decide) (by decide) p q hp hq

theorem rule3_onebrace (p q : List Char) (hp : Bfree p) (hq : Bfree q) :
    rule3 (p ++ obr :: q) = p ++ obr :: q ∨ Locked (rule3 (p ++ obr :: q)) := by
  rw [rule3, show tgtTracking = ('t') :: ("racking.").data from rfl]
  exact ruleA_onebrace litLetterSpacing ('t') _ (by decide) (by decide) p q hp hq

theorem rule4_onebrace (p q : List Char) (hp : Bfree p) (hq : Bfree q) :
    rule4 (p ++ obr :: q) = p ++ obr :: q ∨ Locked (rule4 (p ++ obr :: q)) := by
  rw [rule4, show tgtLeading = ('l') :: ("eading.").data from rfl]
  exact ruleA_onebrace litLineHeight ('l') _ (by decide) (by decide) p q hp hq

theorem rule5_bfree (l : List Char) (h : Bfree l) : rule5 l = l := by
  rw [rule5, runLit, show patSizeDepth = obr :: ('S') :: ("ize.Depth.").data
    from rfl]
  exact repLitF_bfree _ _ _ l h

theorem rule6_bfree (l : List Char) (h : Bfree l) : rule6 l = l := by
  rw [rule6, runLit,
    show patColorPrim = obr :: ('C') :: ("olor Primitives.").data from rfl]
  exact repLitF_bfree _ _ _ l h

theorem rule7_bfree (l : List Char) (h : Bfree l) : rule7 l = l := by
  rw [rule7, runLit, show patScale = obr :: ('T') ::
    ("ypography Primitives.Scale.Scale ").data from rfl]
  exact repLitF_bfree _ _ _ l h

theorem rule8_bfree (l : List Char) (h : Bfree l) : rule8 l = l := by
  rw [rule8, runLit, show patWeight = obr :: ('T') ::
    ("ypography Primitives.Weight.Weight ").data from rfl]
  exact repLitF_bfree _ _ _ l h

theorem rule5_locked (l : List Char) (h : Locked l) : rule5 l = l := by
  rw [rule5, runLit, show patSizeDepth = obr :: ('S') :: ("ize.Depth.").data
    from rfl]
  exact repLitF_locked ('S') _ _ l _ (by decide) h (le_refl _)

theorem rule6_locked (l : List Char) (h : Locked l) : rule6 l = l := by
  rw [rule6, runLit,
    show patColorPrim = obr :: ('C') :: ("olor Primitives.").data from rfl]
  exact repLitF_locked ('C') _ _ l _ (by decide) h (le_refl _)

theorem rule7_locked (l : List Char) (h : Locked l) : rule7 l = l := by
  rw [rule7, runLit, show patScale = obr :: ('T') ::
    ("ypography Primitives.Scale.Scale ").data from rfl]
  exact repLitF_locked ('T') _ _ l _ (by decide) h (le_refl _)

theorem rule8_locked (l : List Char) (h : Locked l) : rule8 l = l := by
  rw [rule8, runLit, show patWeight = obr :: ('T') ::
    ("ypography Primitives.Weight.Weight ").data from rfl]
  exact repLitF_locked ('T') _ _ l _ (by decide) h (le_refl _)

theorem rule5_onebrace (p q : List Char) (hp : Bfree p) (hq : Bfree q) :
    rule5 (p ++ obr :: q) = p ++ obr :: q ∨ Locked (rule5 (p ++ obr :: q)) := by
  rw [rule5, runLit,
    show patSizeDepth = obr :: ('S') :: ("ize.Depth.").data from rfl,
    show repDepth = obr :: ('d') :: ("epth.").data from rfl]
  exact repLitF_onebrace _ ('d') _ (by decide) (by decide) p q _ hp hq
    (le_refl _)

theorem rule6_onebrace (p q : List Char) (hp : Bfree p) (hq : Bfree q) :
    rule6 (p ++ obr :: q) = p ++ obr :: q ∨ Locked (rule6 (p ++ obr :: q)) := by
  rw [rule6, runLit,
    show patColorPrim = obr :: ('C') :: ("olor Primitives.").data from rfl,
    show repColor = obr :: ('c') :: ("olor.").data from rfl]
  exact repLitF_onebrace _ ('c') _ (by decide) (by decide) p q _ hp hq
    (le_refl _)

theorem rule7_onebrace (p q : List Char) (hp : Bfree p) (hq : Bfree q) :
    rule7 (p ++ obr :: q) = p ++ obr :: q ∨ Locked (rule7 (p ++ obr :: q)) := by
  rw [rule7, runLit, show patScale = obr :: ('T') ::
    ("ypography Primitives.Scale.Scale ").data from rfl,
    show repText = obr :: ('t') :: ("ext.").data from rfl]
  exact repLitF_onebrace _ ('t') _ (by decide) (by decide) p q _ hp hq
    (le_refl _)

theorem rule8_onebrace (p q : List Char) (hp : Bfree p) (hq : Bfree q) :
    rule8 (p ++ obr :: q) = p ++ obr :: q ∨ Locked (rule8 (p ++ obr :: q)) := by
  rw [rule8, runLit, show patWeight = obr :: ('T') ::
    ("ypography Primitives.Weight.Weight ").data from rfl,
    show repWeight = obr :: ('f') :: ("ont-weight.").data from rfl]
  exact repLitF_onebrace _ ('f') _ (by decide) (by decide) p q _ hp hq
    (le_refl _)

theorem rule9_bfree (l : List Char) (h : Bfree l) : rule9 l = l := by
  rw [rule9, runB]
  exact scanBF_bfree _ l h

theorem rule9_locked (l : List Char) (h : Locked l) : rule9 l = l := by
  rw [rule9, runB]
  exact scanBF_locked l _ h (le_refl _)

theorem rule9_onebrace (p q : List Char) (hp : Bfree p) (hq : Bfree q) :
    rule9 (p ++ obr :: q) = p ++ obr :: q ∨ Locked (rule9 (p ++ obr :: q)) := by
  rw [rule9, runB]
  exact scanBF_onebrace p q _ hp hq (le_refl _)

/-- One rule preserves the single-brace invariant: the list is still the
original single-brace list, or it is `Locked`. -/
theorem ruleStep (f : List Char → List Char)
    (hone : ∀ p2 q2, Bfree p2 → Bfree q2 →
      f (p2 ++ obr :: q2) = p2 ++ obr :: q2 ∨ Locked (f (p2 ++ obr :: q2)))
    (hlock : ∀ l, Locked l → f l = l)
    (p q : List Char) (hp : Bfree p) (hq : Bfree q) (x : List Char)
    (hx : x = p ++ obr :: q ∨ Locked x) :
    f x = p ++ obr :: q ∨ Locked (f x) := by
  rcases hx with rfl | hx
  · exact hone p q hp hq
  · rw [hlock x hx]
    exact Or.inr hx

/-- The full nine-rule pass fixes brace-free lists. -/
theorem rewriteCore_bfree (l : List Char) (h : Bfree l) : rewriteCore l = l := by
  rw [rewriteCore, rule1_bfree l h, rule2_bfree l h, rule3_bfree l h,
    rule4_bfree l h, rule5_bfree l h, rule6_bfree l h, rule7_bfree l h,
    rule8_bfree l h, rule9_bfree l h]

/-- The full nine-rule pass fixes `Locked` lists. -/
theorem rewriteCore_locked (l : List Char) (h : Locked l) : rewriteCore l = l := by
  rw [rewriteCore, rule1_locked l h, rule2_locked l h, rule3_locked l h,
    rule4_locked l h, rule5_locked l h, rule6_locked l h, rule7_locked l h,
    rule8_locked l h, rule9_locked l h]

/-- The full nine-rule pass maps a single-brace list to itself or to a
`Locked` list. -/
theorem rewriteCore_onebrace (p q : List Char) (hp : Bfree p) (hq : Bfree q) :
    rewriteCore (p ++ obr :: q) = p ++ obr :: q ∨
      Locked (rewriteCore (p ++ obr :: q)) := by
  rw [rewriteCore]
  have s1 := rule1_onebrace p q hp hq
  have s2 := ruleStep rule2 rule2_onebrace rule2_locked p q hp hq _ s1
  have s3 := ruleStep rule3 rule3_onebrace rule3_locked p q hp hq _ s2
  have s4 := ruleStep rule4 rule4_onebrace rule4_locked p q hp hq _ s3
  have s5 := ruleStep rule5 rule5_onebrace rule5_locked p q hp hq _ s4
  have s6 := ruleStep rule6 rule6_onebrace rule6_locked p q hp hq _ s5
  have s7 := ruleStep rule7 rule7_onebrace rule7_locked p q hp hq _ s6
  have s8 := ruleStep rule8 rule8_onebrace rule8_locked p q hp hq _ s7
  exact ruleStep rule9 rule9_onebrace rule9_locked p q hp hq _ s8

theorem braceCount_zero (l : List Char) : braceCount l = 0 ↔ Bfree l := by
  rw [braceCount, List.countP_eq_zero]
  constructor
  · intro h hm
    exact absurd (h obr hm) (by simp)
  · intro h c hc
    intro hb
    have : c = obr := by simpa using hb
    exact h (this ▸ hc)

theorem braceCount_one (l : List Char) (h : braceCount l = 1) :
    ∃ p q, l = p ++ obr :: q ∧ Bfree p ∧ Bfree q := by
  induction l with
  | nil => simp [braceCount] at h
  | cons c cs ih =>
    by_cases hc : c = obr
    · subst hc
      have h0 : braceCount cs = 0 := by
        have := h
        simp [braceCount, List.countP_cons] at this
        simpa [braceCount] using this
      exact ⟨[], cs, rfl, by simp [Bfree], (braceCount_zero cs).mp h0⟩
    · have h1 : braceCount cs = 1 := by
        have := h
        simp [braceCount, List.countP_cons, hc] at this
        simpa [braceCount] using this
      obtain ⟨p, q, hl, hp, hq⟩ := ih h1
      exact ⟨c :: p, q, by rw [hl]; rfl, by
        rw [Bfree_cons]
        exact ⟨fun he => hc he.symm, hp⟩, hq⟩

/-- C6 counterexample: on a reference string with nested braces the rewrite
chain is not idempotent — the first pass consumes the outer
`\x7bTheme...Font Family\x7d` reference, uncovering the inner one, which only
the second pass rewrites. -/
theorem rewriteReferences_idem_cex :
    rewriteReferences
      ("\x7bTheme.X\x7bTheme.A.Font Family\x7d.Font Family\x7d") =
      ("\x7bfont.X\x7bTheme.A.Font Family\x7d\x7d") ∧
    rewriteReferences (rewriteReferences
      ("\x7bTheme.X\x7bTheme.A.Font Family\x7d.Font Family\x7d")) =
      ("\x7bfont.X\x7bfont.A\x7d\x7d") ∧
    rewriteReferences (rewriteReferences
      ("\x7bTheme.X\x7bTheme.A.Font Family\x7d.Font Family\x7d")) ≠
      rewriteReferences
        ("\x7bTheme.X\x7bTheme.A.Font Family\x7d.Font Family\x7d") := by
  refine ⟨by decide, by decide, by decide⟩

/-- C6 (amended): reference rewriting is idempotent on every string
containing at most one opening brace — which covers every well-formed
reference string and, in particular, leaves any string with no opening brace
unchanged; strings with nested braces can rewrite further on a second pass
(see the counterexample). -/
theorem rewriteReferences_idem_single_ref (s : String) :
    (braceCount s.data ≤ 1 →
      rewriteReferences (rewriteReferences s) = rewriteReferences s) ∧
    (braceCount s.data = 0 → rewriteReferences s = s) := by
  have hid : braceCount s.data = 0 → rewriteReferences s = s := by
    intro h0
    have hb := (braceCount_zero s.data).mp h0
    rw [rewriteReferences, rewriteCore_bfree s.data hb]
  refine ⟨?_, hid⟩
  intro h1
  rcases Nat.le_one_iff_eq_zero_or_eq_one.mp h1 with h0 | h0
  · rw [hid h0]
    exact hid h0
  · obtain ⟨p, q, hl, hp, hq⟩ := braceCount_one s.data h0
    rcases rewriteCore_onebrace p q hp hq with he | hlock
    · have e : rewriteReferences s = s := by
        rw [rewriteReferences, hl, he, ← hl]
      rw [e]
      exact e
    · have hlock2 : Locked (rewriteCore s.data) := by
        rw [hl]
        exact hlock
      have hdata : ∀ x : List Char, (String.mk x).data = x := fun x => rfl
      rw [rewriteReferences, rewriteReferences, hdata,
        rewriteCore_locked _ hlock2]

/-- C6 witness: a concrete single-reference string on which the second pass
changes nothing, and a brace-free string returned unchanged. -/
theorem rewriteReferences_idem_single_ref_witness :
    braceCount (("\x7bColor Primitives.Slate.500\x7d").data) ≤ 1 ∧
    rewriteReferences (rewriteReferences
      ("\x7bColor Primitives.Slate.500\x7d")) =
      rewriteReferences ("\x7bColor Primitives.Slate.500\x7d") ∧
    rewriteReferences ("no references") = ("no references") :=
  ⟨by decide,
   (rewriteReferences_idem_single_ref ("\x7bColor Primitives.Slate.500\x7d")).1
     (by decide),
   (rewriteReferences_idem_single_ref ("no references")).2 (by decide)⟩

/-- A string that fails the `includes` guard is brace-free. -/
theorem hasBrace_false_bfree (s : String) (h : hasBrace s = false) :
    Bfree s.data := by
  intro hm
  rw [hasBrace, hasBraceL] at h
  have : s.data.any (fun c => c == obr) = true :=
    List.any_eq_true.mpr ⟨obr, hm, by simp⟩
  rw [this] at h
  exact Bool.noConfusion h

/-- `rewriteReferences` leaves a brace-free string unchanged, so applying it
unconditionally agrees with the `includes`-guarded call sites. -/
theorem rewriteReferences_no_brace (s : String) (h : hasBrace s = false) :
    rewriteReferences s = s := by
  rw [rewriteReferences, rewriteCore_bfree s.data (hasBrace_false_bfree s h)]

/-- The map-obj mapper on a string field always computes
`rewriteReferences`. -/
theorem rriField_str (s : String) :
    rriField (JVal.str s) = JVal.str (rewriteReferences s) := by
  cases h : hasBrace s with
  | true => simp [rriField, h]
  | false => simp [rriField, h, rewriteReferences_no_brace s h]

/-- Field lookup commutes with the map-obj field loop. -/
theorem getField_rriFields (fs : List (String × JVal)) (k : String) :
    getField (rriFields fs) k = (getField fs k).map rriField := by
  induction fs with
  | nil => simp [rriFields, getField]
  | cons hd tl ih =>
    obtain ⟨k', v⟩ := hd
    by_cases h : k' = k <;> simp [rriFields, getField, h, ih]

/-- Every string field reachable through object keys, at any depth, is
rewritten by `rewriteReferencesInObject`. -/
theorem getPath_rriVal : ∀ (p : List String) (o : JVal) (s : String),
    p ≠ [] → getPath o p = some (JVal.str s) →
    getPath (rriVal o) p = some (JVal.str (rewriteReferences s)) := by
  intro p
  induction p with
  | nil => intro o s h _; exact absurd rfl h
  | cons k ks ih =>
    intro o s _ hget
    match o with
    | JVal.obj fs =>
      simp only [getPath] at hget
      cases hv : getField fs k with
      | none => rw [hv] at hget; exact Option.noConfusion hget
      | some v =>
        rw [hv] at hget
        show getPath (JVal.obj (rriFields fs)) (k :: ks) = _
        simp only [getPath, getField_rriFields, hv, Option.map_some]
        match ks, hget with
        | [], hget =>
          simp only [getPath, Option.some.injEq] at hget
          subst hget
          simp [getPath, rriField_str]
        | k2 :: ks2, hget =>
          match v with
          | JVal.obj fs2 =>
            have h2 := ih (JVal.obj fs2) s (by simp) hget
            simpa [rriField, rriVal] using h2
          | JVal.arr xs => simp [getPath] at hget
          | JVal.str s2 => simp [getPath] at hget
          | JVal.num q => simp [getPath] at hget
          | JVal.bool b => simp [getPath] at hget
          | JVal.null => simp [getPath] at hget

/-- The mode half of token rewriting leaves the `$value` field alone. -/
theorem rriModeStep_value (f : List (String × JVal)) :
    getField (rriModeStep f) ("$value") = getField f ("$value") := by
  rw [rriModeStep]
  split
  · split
    · rw [getField_setField_ne]
      decide
    · rfl
  · rfl

/-- The value half of token rewriting leaves the `$extensions` field
alone. -/
theorem rriValueStep_ext (f : List (String × JVal)) :
    getField (rriValueStep f) ("$extensions") = getField f ("$extensions") := by
  rw [rriValueStep]
  split
  · rw [getField_setField_ne]
    decide
  · rw [getField_setField_ne]
    decide
  · split
    · rw [getField_setField_ne]
      decide
    · rfl
  · rfl

/-- C7: tree-wide reference rewriting applies `rewriteReferences` to every
string value reachable inside every token: the token's direct string value;
every element that is a structured sub-value when the value is a list (via
`rewriteReferencesInObject`); every arbitrarily nested string field of a
structured value; and every entry of the modes mapping.  (Strings that are
direct list elements are not fields and stay with the structured-sub-value
rule; guarded call sites agree with the unconditional statement because
`rewriteReferences` fixes brace-free strings.) -/
theorem rriToken_rewrites_reachable_strings :
    (∀ fields s, getField fields ("$value") = some (JVal.str s) →
      getField (rriToken fields) ("$value") =
        some (JVal.str (rewriteReferences s))) ∧
    (∀ fields xs, getField fields ("$value") = some (JVal.arr xs) →
      getField (rriToken fields) ("$value") =
        some (JVal.arr (xs.map (fun e => if isObjLike e then rriVal e else e)))) ∧
    (∀ p o s, p ≠ [] → getPath o p = some (JVal.str s) →
      getPath (rriVal o) p = some (JVal.str (rewriteReferences s))) ∧
    (∀ fields ext m k s,
      getField fields ("$extensions") = some (JVal.obj ext) →
      getField ext ("mode") = some (JVal.obj m) →
      getField m k = some (JVal.str s) →
      ∃ ext2 m2,
        getField (rriToken fields) ("$extensions") = some (JVal.obj ext2) ∧
        getField ext2 ("mode") = some (JVal.obj m2) ∧
        getField m2 k = some (JVal.str (rewriteReferences s))) := by
  refine ⟨?_, ?_, getPath_rriVal, ?_⟩
  · intro fields s h
    rw [rriToken, rriModeStep_value]
    simp only [rriValueStep, h]
    cases hb : hasBrace s with
    | true => simp [hb, getField_setField_self]
    | false => simp [hb, h, rewriteReferences_no_brace s hb]
  · intro fields xs h
    rw [rriToken, rriModeStep_value]
    simp only [rriValueStep, h]
    simp [getField_setField_self]
  · intro fields ext m k s hext hmode hk
    have hext1 : getField (rriValueStep fields) ("$extensions") =
        some (JVal.obj ext) := by
      rw [rriValueStep_ext, hext]
    rw [rriToken]
    simp only [rriModeStep, hext1, hmode]
    refine ⟨setField ext ("mode") (JVal.obj (rriFields m)), rriFields m,
      ?_, ?_, ?_⟩
    · rw [getField_setField_self]
      simp [rriVal]
    · rw [getField_setField_self]
    · rw [getField_rriFields, hk]
      simp [rriField_str]

/-- C7 witness: the direct value, a nested field, and a mode entry of
concrete tokens all get rewritten. -/
theorem rriToken_rewrites_reachable_strings_witness :
    projStr (getField (rriToken ([(("$value"),
        JVal.str ("\x7bColor Primitives.Slate.500\x7d"))])) ("$value")) =
      some ("\x7bcolor.Slate.500\x7d") ∧
    projStr (getPath (rriVal (JVal.obj ([(("shadow"), JVal.obj ([(("color"),
        JVal.str ("\x7bColor Primitives.Red.500\x7d"))]))])))
        [("shadow"), ("color")]) =
      some ("\x7bcolor.Red.500\x7d") ∧
    (∃ ext2 m2, getField (rriToken ([(("$value"), JVal.str ("x")),
        (("$extensions"), JVal.obj ([(("mode"), JVal.obj ([(("Light"),
          JVal.str ("\x7bColor Primitives.Slate.100\x7d"))]))]))]))
        ("$extensions") = some (JVal.obj ext2) ∧
      getField ext2 ("mode") = some (JVal.obj m2) ∧
      projStr (getField m2 ("Light")) =
        some ("\x7bcolor.Slate.100\x7d")) := by
  refine ⟨?_, ?_, ?_⟩
  · have h := rriToken_rewrites_reachable_strings.1
      ([(("$value"), JVal.str ("\x7bColor Primitives.Slate.500\x7d"))])
      ("\x7bColor Primitives.Slate.500\x7d") rfl
    rw [h, show rewriteReferences ("\x7bColor Primitives.Slate.500\x7d") =
      ("\x7bcolor.Slate.500\x7d") from by decide]
    rfl
  · have h := rriToken_rewrites_reachable_strings.2.2.1
      [("shadow"), ("color")]
      (JVal.obj ([(("shadow"), JVal.obj ([(("color"),
        JVal.str ("\x7bColor Primitives.Red.500\x7d"))]))]))
      ("\x7bColor Primitives.Red.500\x7d") (by simp) rfl
    rw [h, show rewriteReferences ("\x7bColor Primitives.Red.500\x7d") =
      ("\x7bcolor.Red.500\x7d") from by decide]
    rfl
  · obtain ⟨e2, m2, h1, h2, h3⟩ :=
      rriToken_rewrites_reachable_strings.2.2.2
        ([(("$value"), JVal.str ("x")),
          (("$extensions"), JVal.obj ([(("mode"), JVal.obj ([(("Light"),
            JVal.str ("\x7bColor Primitives.Slate.100\x7d"))]))]))])
        ([(("mode"), JVal.obj ([(("Light"),
          JVal.str ("\x7bColor Primitives.Slate.100\x7d"))]))])
        ([(("Light"), JVal.str ("\x7bColor Primitives.Slate.100\x7d"))])
        ("Light") ("\x7bColor Primitives.Slate.100\x7d") rfl rfl rfl
    refine ⟨e2, m2, h1, h2, ?_⟩
    rw [h3, show rewriteReferences ("\x7bColor Primitives.Slate.100\x7d") =
      ("\x7bcolor.Slate.100\x7d") from by decide]
    rfl

/-- Field lookup commutes with an entry-wise value map. -/
theorem getField_map_entries (f : JVal → JVal) (m : List (String × JVal))
    (k : String) :
    getField (m.map (fun kv => (kv.1, f kv.2))) k = (getField m k).map f := by
  induction m with
  | nil => simp [getField]
  | cons hd tl ih =>
    obtain ⟨k', v⟩ := hd
    by_cases h : k' = k <;> simp [getField, h, ih]

/-- The mode half of `pxToRem` leaves the `$value` field alone. -/
theorem pxToRemModeStep_value (f : List (String × JVal)) :
    getField (pxToRemModeStep f) ("$value") = getField f ("$value") := by
  rw [pxToRemModeStep]
  split
  · split
    · rw [getField_setField_ne]
      decide
    · rfl
  · rfl

/-- The value half of `pxToRem` leaves the `$extensions` field alone. -/
theorem pxToRemValueStep_ext (f : List (String × JVal)) :
    getField (pxToRemValueStep f) ("$extensions") = getField f ("$extensions") := by
  rw [pxToRemValueStep]
  split
  · split
    · rfl
    · rw [getField_setField_ne]
      decide
  · rfl

/-- C8: a token whose literal value is a bare (reference-free) numeric
string is converted by dividing the parsed magnitude by the fixed base
`basePxFontSize = 16` and re-tagging the suffix as `rem`; when the token
carries modes, every reference-free string entry is converted independently
by the same rule and entries containing a brace are left untouched. -/
theorem pxToRem_bare_px_conversion :
    (∀ fields s q, getField fields ("$value") = some (JVal.str s) →
      hasBrace s = false → parseFloatQ s = some q →
      getField (pxToRem fields) ("$value") =
        some (JVal.str (jsNumStr (jnDivNat q basePxFontSize) ++ ("rem")))) ∧
    (∀ fields ext m k s,
      getField fields ("$extensions") = some (JVal.obj ext) →
      getField ext ("mode") = some (JVal.obj m) →
      getField m k = some (JVal.str s) →
      ∃ ext2 m2,
        getField (pxToRem fields) ("$extensions") = some (JVal.obj ext2) ∧
        getField ext2 ("mode") = some (JVal.obj m2) ∧
        getField m2 k = some (if hasBrace s then JVal.str s
          else JVal.str (remString s))) := by
  constructor
  · intro fields s q hv hb hq
    rw [pxToRem, pxToRemModeStep_value]
    simp only [pxToRemValueStep, hv, hb, Bool.false_eq_true, if_false]
    rw [getField_setField_self]
    simp [remString, hq]
  · intro fields ext m k s hext hmode hk
    have hext1 : getField (pxToRemValueStep fields) ("$extensions") =
        some (JVal.obj ext) := by
      rw [pxToRemValueStep_ext, hext]
    rw [pxToRem]
    simp only [pxToRemModeStep, hext1, hmode]
    refine ⟨setField ext ("mode")
      (JVal.obj (m.map (fun kv => (kv.1, pxToRemMode kv.2)))),
      m.map (fun kv => (kv.1, pxToRemMode kv.2)), ?_, ?_, ?_⟩
    · rw [getField_setField_self]
    · rw [getField_setField_self]
    · rw [getField_map_entries, hk]
      simp [pxToRemMode]

/-- C8 witness: the spec's `16px` scenario converts to `1rem`; a `12px` mode
entry converts to `0.75rem` while a reference-valued entry survives
unchanged. -/
theorem pxToRem_bare_px_conversion_witness :
    projStr (getField (pxToRem ([(("$type"), JVal.str ("dimension")),
        (("$value"), JVal.str ("16px"))])) ("$value")) = some ("1rem") ∧
    (∃ ext2 m2, getField (pxToRem ([(("$value"), JVal.str ("12px")),
        (("$extensions"), JVal.obj ([(("mode"), JVal.obj
          ([(("Base"), JVal.str ("12px")),
            (("Compact"), JVal.str ("\x7bspacing.100\x7d"))]))]))]))
        ("$extensions") = some (JVal.obj ext2) ∧
      getField ext2 ("mode") = some (JVal.obj m2) ∧
      projStr (getField m2 ("Base")) = some ("0.75rem") ∧
      projStr (getField m2 ("Compact")) = some ("\x7bspacing.100\x7d")) := by
  constructor
  · have h := pxToRem_bare_px_conversion.1
      ([(("$type"), JVal.str ("dimension")), (("$value"), JVal.str ("16px"))])
      ("16px") (JNum.mk 16 1) rfl rfl rfl
    rw [h, show jsNumStr (jnDivNat (JNum.mk 16 1) basePxFontSize) ++ ("rem") =
      ("1rem") from by decide]
    rfl
  · obtain ⟨e2, m2, h1, h2, h3⟩ := pxToRem_bare_px_conversion.2
      ([(("$value"), JVal.str ("12px")),
        (("$extensions"), JVal.obj ([(("mode"), JVal.obj
          ([(("Base"), JVal.str ("12px")),
            (("Compact"), JVal.str ("\x7bspacing.100\x7d"))]))]))])
      ([(("mode"), JVal.obj ([(("Base"), JVal.str ("12px")),
        (("Compact"), JVal.str ("\x7bspacing.100\x7d"))]))])
      ([(("Base"), JVal.str ("12px")),
        (("Compact"), JVal.str ("\x7bspacing.100\x7d"))])
      ("Base") ("12px") rfl rfl rfl
    obtain ⟨e3, m3, h4, h5, h6⟩ := pxToRem_bare_px_conversion.2
      ([(("$value"), JVal.str ("12px")),
        (("$extensions"), JVal.obj ([(("mode"), JVal.obj
          ([(("Base"), JVal.str ("12px")),
            (("Compact"), JVal.str ("\x7bspacing.100\x7d"))]))]))])
      ([(("mode"), JVal.obj ([(("Base"), JVal.str ("12px")),
        (("Compact"), JVal.str ("\x7bspacing.100\x7d"))]))])
      ([(("Base"), JVal.str ("12px")),
        (("Compact"), JVal.str ("\x7bspacing.100\x7d"))])
      ("Compact") ("\x7bspacing.100\x7d") rfl rfl rfl
    refine ⟨e2, m2, h1, h2, ?_, ?_⟩
    · rw [h3, show (if hasBrace ("12px") then JVal.str ("12px")
        else JVal.str (remString ("12px"))) = JVal.str ("0.75rem") from by
          rw [show hasBrace ("12px") = false from by decide,
            show remString ("12px") = ("0.75rem") from by decide]
          rfl]
      rfl
    · have he : e3 = e2 := by
        have := h4.symm.trans h1
        exact (JVal.obj.injEq .. ▸ Option.some.injEq .. ▸ this)
      have hm : m3 = m2 := by
        subst he
        have := h5.symm.trans h2
        exact (JVal.obj.injEq .. ▸ Option.some.injEq .. ▸ this)
      subst hm
      rw [h6, show (if hasBrace ("\x7bspacing.100\x7d")
        then JVal.str ("\x7bspacing.100\x7d")
        else JVal.str (remString ("\x7bspacing.100\x7d"))) =
          JVal.str ("\x7bspacing.100\x7d") from by
          rw [show hasBrace ("\x7bspacing.100\x7d") = true from by decide]
          rfl]
      rfl

/-- C9 counterexample: in the heap model of lines 100-106, the `border-color`
and `ring-color` roots built by spreading `omit(Theme.Border, ['Utilities'])`
hold the *same* token reference, so the reshaped output does not contain two
independent copies: mutating the token reached through `border-color` is
visible through `ring-color` and through the source `Theme.Border` group. -/
theorem themeTokens_border_ring_alias_cex :
    refAt c9Store c9Border ("Default") = some 0 ∧
    refAt c9Store c9Ring ("Default") = some 0 ∧
    readPath c9Store c9Ring [("Default"), ("$value")] =
      some (SVal.prim ("#000")) ∧
    readPath c9MutStore c9Ring [("Default"), ("$value")] =
      some (SVal.prim ("1rem")) ∧
    readPath c9MutStore 1 [("Default"), ("$value")] =
      some (SVal.prim ("1rem")) :=
  ⟨rfl, rfl, rfl, rfl, rfl⟩

/-- C9 (amended): the pipeline's mutating passes run behind the
`structuredClone` of `mapTokens`; mutating a token of the cloned tree leaves
the source group and the other (uncloned) root untouched. -/
theorem mapTokens_clone_isolates_source :
    readPath c9CloneStore c9CloneRoot [("Default"), ("$value")] =
      some (SVal.prim ("#000")) ∧
    readPath c9CloneMut c9CloneRoot [("Default"), ("$value")] =
      some (SVal.prim ("1rem")) ∧
    readPath c9CloneMut 1 [("Default"), ("$value")] =
      some (SVal.prim ("#000")) ∧
    readPath c9CloneMut c9Ring [("Default"), ("$value")] =
      some (SVal.prim ("#000")) :=
  ⟨rfl, rfl, rfl, rfl⟩

/-- Writing back the value already stored under a key is the identity. -/
theorem setField_self (fs : List (String × JVal)) (k : String) (v : JVal)
    (h : getField fs k = some v) : setField fs k v = fs := by
  induction fs with
  | nil => simp [getField] at h
  | cons hd tl ih =>
    obtain ⟨k', w⟩ := hd
    by_cases hk : k' = k
    · subst hk
      simp [getField] at h
      simp [setField, h]
    · simp [getField, hk] at h
      simp [setField, hk, ih h]

/-- Every field value of a deeply brace-free object is deeply brace-free. -/
theorem noBraceFields_get (fs : List (String × JVal)) (k : String) (v : JVal)
    (h : noBraceFields fs = true) (hget : getField fs k = some v) :
    noBraceVal v = true := by
  induction fs with
  | nil => simp [getField] at hget
  | cons hd tl ih =>
    obtain ⟨k', w⟩ := hd
    rw [noBraceFields, Bool.and_eq_true] at h
    by_cases hk : k' = k
    · subst hk
      simp [getField] at hget
      exact hget ▸ h.1
    · simp [getField, hk] at hget
      exact ih h.2 hget

/-- Every element of a deeply brace-free array is deeply brace-free. -/
theorem noBraceArr_mem (xs : List JVal) (e : JVal)
    (h : noBraceArr xs = true) (hm : e ∈ xs) : noBraceVal e = true := by
  induction xs with
  | nil => exact absurd hm (by simp)
  | cons hd tl ih =>
    rw [noBraceArr, Bool.and_eq_true] at h
    rcases List.mem_cons.mp hm with h2 | h2
    · exact h2 ▸ h.1
    · exact ih h.2 h2

mutual

theorem rriVal_id_noBrace : ∀ v, noBraceVal v = true → rriVal v = v
  | JVal.obj fs, h => by
    rw [rriVal, rriFields_id_noBrace fs (by simpa [noBraceVal] using h)]
  | JVal.arr xs, h => by
    rw [rriVal, rriArr_id_noBrace xs (by simpa [noBraceVal] using h)]
  | JVal.str _, _ => rfl
  | JVal.num _, _ => rfl
  | JVal.bool _, _ => rfl
  | JVal.null, _ => rfl

theorem rriField_id_noBrace : ∀ v, noBraceVal v = true → rriField v = v
  | JVal.str s, h => by
    have hb : hasBrace s = false := by simpa [noBraceVal] using h
    simp [rriField, hb]
  | JVal.obj fs, h => by
    rw [rriField, rriFields_id_noBrace fs (by simpa [noBraceVal] using h)]
  | JVal.arr xs, h => by
    rw [rriField, rriArr_id_noBrace xs (by simpa [noBraceVal] using h)]
  | JVal.num _, _ => rfl
  | JVal.bool _, _ => rfl
  | JVal.null, _ => rfl

theorem rriFields_id_noBrace :
    ∀ fs, noBraceFields fs = true → rriFields fs = fs
  | [], _ => rfl
  | (k, v) :: rest, h => by
    rw [noBraceFields, Bool.and_eq_true] at h
    rw [rriFields, rriField_id_noBrace v h.1, rriFields_id_noBrace rest h.2]

theorem rriArr_id_noBrace : ∀ xs, noBraceArr xs = true → rriArr xs = xs
  | [], _ => rfl
  | e :: rest, h => by
    rw [noBraceArr, Bool.and_eq_true] at h
    rw [rriArr, rriArr_id_noBrace rest h.2]
    cases he : isObjLike e with
    | true => rw [if_pos rfl, rriVal_id_noBrace e h.1]
    | false => simp [he]

end

/-- The value half of token rewriting leaves the `$type` field alone. -/
theorem rriValueStep_type (f : List (String × JVal)) :
    getField (rriValueStep f) ("$type") = getField f ("$type") := by
  rw [rriValueStep]
  split
  · rw [getField_setField_ne]
    decide
  · rw [getField_setField_ne]
    decide
  · split
    · rw [getField_setField_ne]
      decide
    · rfl
  · rfl

/-- The mode half of token rewriting leaves the `$type` field alone. -/
theorem rriModeStep_type (f : List (String × JVal)) :
    getField (rriModeStep f) ("$type") = getField f ("$type") := by
  rw [rriModeStep]
  split
  · split
    · rw [getField_setField_ne]
      decide
    · rfl
  · rfl

/-- The array-element rewriting map is the identity on deeply brace-free
arrays. -/
theorem mapArr_id_noBrace (xs : List JVal) (h : noBraceArr xs = true) :
    xs.map (fun e => if isObjLike e then rriVal e else e) = xs := by
  induction xs with
  | nil => rfl
  | cons e rest ih =>
    rw [noBraceArr, Bool.and_eq_true] at h
    rw [List.map_cons, ih h.2]
    cases hio : isObjLike e with
    | true => simp [hio, rriVal_id_noBrace e h.1]
    | false => simp [hio]

theorem rriValueStep_id_noBrace (fields : List (String × JVal))
    (h : noBraceFields fields = true) : rriValueStep fields = fields := by
  rw [rriValueStep]
  split
  · rename_i o heq
    have hnb := noBraceFields_get fields ("$value") _ h heq
    rw [rriVal_id_noBrace _ hnb, setField_self _ _ _ heq]
  · rename_i xs heq
    have hnb := noBraceFields_get fields ("$value") _ h heq
    have hxs : noBraceArr xs = true := by simpa [noBraceVal] using hnb
    rw [mapArr_id_noBrace xs hxs, setField_self _ _ _ heq]
  · rename_i s heq
    have hnb := noBraceFields_get fields ("$value") _ h heq
    have hb : hasBrace s = false := by simpa [noBraceVal] using hnb
    simp [hb]
  · rfl

theorem rriModeStep_id_noBrace (fields : List (String × JVal))
    (h : noBraceFields fields = true) : rriModeStep fields = fields := by
  rw [rriModeStep]
  split
  · rename_i ext heq
    split
    · rename_i m heq2
      have hextnb := noBraceFields_get fields ("$extensions") _ h heq
      have hextf : noBraceFields ext = true := by
        simpa [noBraceVal] using hextnb
      have hm := noBraceFields_get ext ("mode") _ hextf heq2
      rw [rriVal_id_noBrace _ hm, setField_self _ _ _ heq2,
        setField_self _ _ _ heq]
    · rfl
  · rfl

/-- C10 counterexample: the font recipe of reshaping does change token
identity — the `Family Sans` token comes out with `$type` retagged from
`string` to `fontFamily` and with its value wrapped into an array with the
generic `sans-serif` fallback. -/
theorem themeTokens_font_recipe_cex :
    mapTokens fontMapper ([(("Family Sans"), JVal.obj
      ([(("$type"), JVal.str ("string")),
        (("$value"), JVal.str ("Inter"))]))]) =
      [(("Sans"), JVal.obj ([(("$type"), JVal.str ("fontFamily")),
        (("$value"), JVal.arr ([JVal.str ("Inter"),
          JVal.str ("sans-serif")]))]))] ∧
    ("fontFamily") ≠ ("string") :=
  ⟨rfl, by decide⟩

/-- C10 (amended): reshaping recipes with per-token post-processing (the
font recipe, the px-to-rem recipes) do change a token's type and value; the
final reference-rewriting pass, by contrast, preserves the `$type` tag of
every token and is the identity on every token containing no reference (no
opening brace in any string), so that pass changes only cross-reference
strings. -/
theorem reshape_reference_pass_preserves_tokens :
    (∀ fields, getField (rriToken fields) ("$type") =
      getField fields ("$type")) ∧
    (∀ fields, noBraceFields fields = true → rriToken fields = fields) := by
  constructor
  · intro fields
    rw [rriToken, rriModeStep_type, rriValueStep_type]
  · intro fields h
    rw [rriToken, rriValueStep_id_noBrace fields h,
      rriModeStep_id_noBrace fields h]

/-- C10 witness: a concrete brace-free dimension token passes the rewriting
stage untouched, and a token with a reference keeps its `$type`. -/
theorem reshape_reference_pass_preserves_tokens_witness :
    noBraceFields ([(("$type"), JVal.str ("dimension")),
      (("$value"), JVal.str ("16px"))]) = true ∧
    rriToken ([(("$type"), JVal.str ("dimension")),
      (("$value"), JVal.str ("16px"))]) =
      [(("$type"), JVal.str ("dimension")), (("$value"), JVal.str ("16px"))] ∧
    getField (rriToken ([(("$type"), JVal.str ("color")), (("$value"),
      JVal.str ("\x7bColor Primitives.Slate.500\x7d"))])) ("$type") =
      getField ([(("$type"), JVal.str ("color")), (("$value"),
        JVal.str ("\x7bColor Primitives.Slate.500\x7d"))]) ("$type") :=
  ⟨by decide,
   reshape_reference_pass_preserves_tokens.2 _ (by decide),
   reshape_reference_pass_preserves_tokens.1 _⟩
